import Mathlib

/-!
Shallow embedding of the logical_expr Rust library (src/lib.rs, src/value.rs,
src/operator.rs, src/expression.rs, src/non_boolean_expression.rs) and proofs
about the claims of its specification.

Modelling conventions:
* Rust strings are modelled as Lean String; parsers work on List Char
  (the character list of the input slice).
* nom parsers of type IResult are modelled as List Char → PRes α where
  PRes.fail is a recoverable nom Error (alt backtracks over it), PRes.ok
  carries the unconsumed remainder and the value, and PRes.panic models a
  Rust panic unwinding through the parser (the only panic site in the
  sources is the i64 unwrap in the integer literal parser in value.rs).
* i64 is modelled as Int; the literal parser enforces the i64 overflow
  panic of value.rs line 58 explicitly.
* f64 is modelled as Rat (exact values; no claim below depends on any
  float arithmetic, rounding, or formatting).
* The external regex crate is not part of the repository; it is modelled
  by an abstract RegexEngine record passed to the evaluator: compile
  returns none when the pattern is invalid, otherwise a matcher.
  Every theorem below is either universally quantified over the engine or
  exercises only paths that never reach regex code.
* Result<_, String> is modelled as Res with a structured error type
  EvalError; EvalError.message renders the exact format! templates of the
  sources.  The single exception is EvalError.nomParse, which corresponds
  to format!("{:?}", err) on a nom parser error in expression.rs: the
  Debug output of nom internals is not modelled, only the fact that the
  parse failed.
* The recursive descent of expression.rs is modelled with a fuel
  parameter; boolean value, expression and chain parsers decrement the
  fuel at every nested call.  Every nesting level of the grammar consumes
  at least one input character, so the top level fuel 3 * length + 4 used
  by parse_whole_boolean_expression is always sufficient; the proofs about
  parser behaviour carry explicit fuel bounds.
-/

namespace LogicalExpr

/-! ## Data model (src/lib.rs, src/value.rs, src/operator.rs) -/

/-- ContextValue from lib.rs: the caller facing value type. -/
inductive ContextValue : Type where
  | string (s : String)
  | integer (i : Int)
  | float (q : Rat)
  | boolean (b : Bool)
  deriving DecidableEq

/-- Context from lib.rs is a HashMap from name to ContextValue; modelled by
its lookup function (HashMap.get). -/
abbrev Context : Type := String → Option ContextValue

/-- Value from value.rs.  The Identifier newtype is flattened to the name it
carries. -/
inductive Value : Type where
  | identifier (name : String)
  | stringLiteral (s : String)
  | integerLiteral (i : Int)
  | floatLiteral (q : Rat)
  | boolean (b : Bool)
  deriving DecidableEq

/-- BinaryOperator from operator.rs. -/
inductive BinaryOperator : Type where
  | equals
  | notEquals
  | lessThan
  | greaterThan
  | lessEqual
  | greaterEqual
  | and
  | or
  | regexMatch
  deriving DecidableEq

/-- UnaryOperator from operator.rs. -/
inductive UnaryOperator : Type where
  | not
  deriving DecidableEq

/-- NonBooleanExpression from non_boolean_expression.rs: a tuple struct of
left value, operator, right value. -/
structure NonBooleanExpression : Type where
  lhs : Value
  op : BinaryOperator
  rhs : Value
  deriving DecidableEq

/-- BooleanExpression from expression.rs. -/
inductive BooleanExpression : Type where
  | identifier (name : String)
  | boolean (b : Bool)
  | nonBoolean (e : NonBooleanExpression)
  | binary (lhs : BooleanExpression) (op : BinaryOperator) (rhs : BooleanExpression)
  | unary (op : UnaryOperator) (operand : BooleanExpression)
  deriving DecidableEq

/-! ## Errors

Each constructor corresponds to one format! site in the sources; message
renders the exact template text. -/

/-- The error strings produced by the library, one constructor per format!
site. -/
inductive EvalError : Type where
  /-- expression.rs line 91: format!("{:?}", err) on a nom error; the nom
  Debug text itself is not modelled. -/
  | nomParse
  /-- expression.rs line 90: Expected end of input, found the remainder. -/
  | trailingInput (rest : String)
  /-- value.rs line 41: Identifier not found in context. -/
  | identifierNotFound (name : String)
  /-- expression.rs line 51: Value should be a boolean (an identifier in
  boolean position that is absent or not bound to a boolean). -/
  | valueShouldBeBoolean (name : String)
  /-- expression.rs line 25: Context should be used before evaluation. -/
  | contextBeforeEval (name : String)
  /-- expression.rs line 35: Invalid binary operator for boolean. -/
  | invalidBinaryForBoolean (op : BinaryOperator)
  /-- non_boolean_expression.rs line 25: Invalid binary operator for string. -/
  | invalidBinaryForString (op : BinaryOperator)
  /-- non_boolean_expression.rs line 24: Invalid regex. -/
  | invalidRegex (pattern : String)
  /-- non_boolean_expression.rs line 28: Not a Binary String expression. -/
  | notBinaryString (e : NonBooleanExpression)
  /-- non_boolean_expression.rs lines 41 and 57: Invalid binary operator for
  number. -/
  | invalidBinaryForNumber (op : BinaryOperator)
  /-- non_boolean_expression.rs line 44, the else branch of eval_integer. -/
  | notBinaryIntegerFromIntPath (e : NonBooleanExpression)
  /-- non_boolean_expression.rs line 60, the else branch of eval_float: the
  source renders it with the same Integer wording as line 44. -/
  | notBinaryIntegerFromFloatPath (e : NonBooleanExpression)
  deriving DecidableEq

/-- Result of a Rust function returning Result with a String error. -/
inductive Res (α : Type) : Type where
  | ok (a : α)
  | err (e : EvalError)
  deriving DecidableEq

/-- Result of the whole pipeline: a Rust call either returns Ok, returns
Err, or panics. -/
inductive Outcome (α : Type) : Type where
  | panic
  | err (e : EvalError)
  | ok (a : α)
  deriving DecidableEq

/-! ## Debug formatting used inside error messages -/

/-- Rust Debug escaping for a string: the common escapes used by Debug for
str.  All strings reaching messages in the claims are plain ASCII names. -/
def rustDebugEscape (s : String) : String :=
  String.join (s.data.map fun c =>
    if c = Char.ofNat 34 then "\\\""
    else if c = Char.ofNat 92 then "\\\\"
    else if c = Char.ofNat 10 then "\\n"
    else if c = Char.ofNat 13 then "\\r"
    else if c = Char.ofNat 9 then "\\t"
    else String.mk [c])

/-- Rust Debug rendering of a String value (quoted and escaped). -/
def rustDebugString (s : String) : String :=
  "\"" ++ rustDebugEscape s ++ "\""

/-- Debug rendering of a Rat standing for an f64.  Exact f64 Debug
formatting is not reproduced; no theorem below depends on this case. -/
def ratDebug (q : Rat) : String :=
  if q.den = 1 then toString q.num ++ ".0" else toString q.num ++ "/" ++ toString q.den

/-- Debug rendering of Value (derive(Debug) of value.rs). -/
def Value.debugFmt : Value → String
  | .identifier n => "Identifier(Identifier(" ++ rustDebugString n ++ "))"
  | .stringLiteral s => "StringLiteral(" ++ rustDebugString s ++ ")"
  | .integerLiteral i => "IntegerLiteral(" ++ toString i ++ ")"
  | .floatLiteral q => "FloatLiteral(" ++ ratDebug q ++ ")"
  | .boolean b => "Boolean(" ++ (if b then "true" else "false") ++ ")"

/-- Debug rendering of BinaryOperator (derive(Debug) of operator.rs). -/
def BinaryOperator.debugFmt : BinaryOperator → String
  | .equals => "Equals"
  | .notEquals => "NotEquals"
  | .lessThan => "LessThan"
  | .greaterThan => "GreaterThan"
  | .lessEqual => "LessEqual"
  | .greaterEqual => "GreaterEqual"
  | .and => "And"
  | .or => "Or"
  | .regexMatch => "RegexMatch"

/-- Debug rendering of NonBooleanExpression (derive(Debug)). -/
def NonBooleanExpression.debugFmt (e : NonBooleanExpression) : String :=
  "NonBooleanExpression(" ++ e.lhs.debugFmt ++ ", " ++ e.op.debugFmt ++ ", "
    ++ e.rhs.debugFmt ++ ")"

/-- The message text of each error, following the format! templates of the
sources.  The nomParse case stands for the Debug rendering of a nom error,
which is not modelled. -/
def EvalError.message : EvalError → String
  | .nomParse => "nom parse error"
  | .trailingInput rest => "Expected end of input, found: " ++ rustDebugString rest
  | .identifierNotFound name => "Identifier not found in context: " ++ name
  | .valueShouldBeBoolean name =>
      "Value should be a boolean: Identifier(" ++ rustDebugString name ++ ")"
  | .contextBeforeEval name =>
      "Context should be used before evaluation: Identifier(" ++ rustDebugString name ++ ")"
  | .invalidBinaryForBoolean op => "Invalid binary operator for boolean: " ++ op.debugFmt
  | .invalidBinaryForString op => "Invalid binary operator for string: " ++ op.debugFmt
  | .invalidRegex pattern => "Invalid regex: " ++ pattern
  | .notBinaryString e => "Not a Binary String expression: " ++ e.debugFmt
  | .invalidBinaryForNumber op => "Invalid binary operator for number: " ++ op.debugFmt
  | .notBinaryIntegerFromIntPath e => "Not a Binary Integer expression: " ++ e.debugFmt
  | .notBinaryIntegerFromFloatPath e => "Not a Binary Integer expression: " ++ e.debugFmt

/-! ## Context resolution (value.rs) -/

/-- From impl of ContextValue for Value in value.rs. -/
def valueOfContextValue : ContextValue → Value
  | .string s => .stringLiteral s
  | .integer i => .integerLiteral i
  | .float q => .floatLiteral q
  | .boolean b => .boolean b

/-- Identifier.use_context from value.rs. -/
def identifierUseContext (name : String) (context : Context) : Res Value :=
  match context name with
  | some val => .ok (valueOfContextValue val)
  | none => .err (.identifierNotFound name)

/-- Value.use_context from value.rs. -/
def Value.use_context : Value → Context → Res Value
  | .identifier name, context => identifierUseContext name context
  | v, _ => .ok v

/-! ## Parsers (value.rs, operator.rs) -/

/-- Result of a nom parser: panic, recoverable error, or remainder plus
value. -/
inductive PRes (α : Type) : Type where
  | panic
  | fail
  | ok (rest : List Char) (val : α)
  deriving DecidableEq

/-- A nom parser on a string slice. -/
abbrev Parser (α : Type) : Type := List Char → PRes α

/-- Characters of is_ascii_digit. -/
def digitChar (c : Char) : Bool := c.isDigit

/-- Characters accepted by the identifier parser of value.rs:
is_ascii_alphabetic, dot, or underscore. -/
def identChar (c : Char) : Bool := c.isAlpha || c = '.' || c = '_'

/-- Characters accepted by nom multispace0: space, tab, carriage return,
line feed. -/
def wsChar (c : Char) : Bool :=
  c = ' ' || c = Char.ofNat 9 || c = Char.ofNat 13 || c = Char.ofNat 10

/-- The single quote character delimiting string literals. -/
def quoteChar : Char := Char.ofNat 39

/-- nom take_while1. -/
def takeWhile1 (p : Char → Bool) : Parser (List Char) := fun input =>
  match input.takeWhile p with
  | [] => .fail
  | pre => .ok (input.dropWhile p) pre

/-- nom tag. -/
def ptag (s : List Char) : Parser (List Char) := fun input =>
  if s.isPrefixOf input then .ok (input.drop s.length) s else .fail

/-- nom character complete char. -/
def pchar (c : Char) : Parser Char := fun input =>
  match input with
  | [] => .fail
  | c₀ :: rest => if c₀ = c then .ok rest c else .fail

/-- nom multispace0, which never fails: the remainder after discarding
leading whitespace. -/
def skipWS (input : List Char) : List Char := input.dropWhile wsChar

/-- Largest i64 value; parse i64 panics (unwrap in value.rs) above it. -/
def i64Max : Nat := 9223372036854775807

/-- Numeric value of a digit run, as parse i64 computes it. -/
def digitsToNat (l : List Char) : Nat :=
  l.foldl (fun acc c => 10 * acc + (c.toNat - 48)) 0

/-- identifier from value.rs: one or more alphabetic, dot or underscore
characters, failing on exactly true or false. -/
def identifier : Parser Value := fun input =>
  match takeWhile1 identChar input with
  | .ok rest s =>
      if s = "true".data ∨ s = "false".data then .fail
      else .ok rest (.identifier (String.mk s))
  | .fail => .fail
  | .panic => .panic

/-- integer from value.rs: a digit run parsed with parse i64 and unwrap
(panicking above i64Max), with identifier fallback. -/
def integer : Parser Value := fun input =>
  match takeWhile1 digitChar input with
  | .ok rest s =>
      if digitsToNat s ≤ i64Max then .ok rest (.integerLiteral (Int.ofNat (digitsToNat s)))
      else .panic
  | .fail => identifier input
  | .panic => .panic

/-- Rational value of digits dot digits, standing for the f64 the source
builds with format! and parse f64. -/
def ratOfParts (intPart fracPart : List Char) : Rat :=
  (digitsToNat intPart : Rat) + (digitsToNat fracPart : Rat) / ((10 : Rat) ^ fracPart.length)

/-- float from value.rs: digits, a dot, digits, with identifier fallback on
any failure of the tuple. -/
def float : Parser Value := fun input =>
  match takeWhile1 digitChar input with
  | .ok r₁ intPart =>
      (match pchar '.' r₁ with
       | .ok r₂ _ =>
           (match takeWhile1 digitChar r₂ with
            | .ok r₃ fracPart => .ok r₃ (.floatLiteral (ratOfParts intPart fracPart))
            | .fail => identifier input
            | .panic => .panic)
       | .fail => identifier input
       | .panic => .panic)
  | .fail => identifier input
  | .panic => .panic

/-- string from value.rs: at least one non-quote character between single
quotes, with identifier fallback. -/
def string : Parser Value := fun input =>
  match pchar quoteChar input with
  | .ok r₁ _ =>
      (match takeWhile1 (fun c => c != quoteChar) r₁ with
       | .ok r₂ s =>
           (match pchar quoteChar r₂ with
            | .ok r₃ _ => .ok r₃ (.stringLiteral (String.mk s))
            | .fail => identifier input
            | .panic => .panic)
       | .fail => identifier input
       | .panic => .panic)
  | .fail => identifier input
  | .panic => .panic

/-- boolean from value.rs: tag true or tag false, with identifier
fallback. -/
def boolean : Parser Value := fun input =>
  match ptag "true".data input with
  | .ok rest _ => .ok rest (.boolean true)
  | .panic => .panic
  | .fail =>
      match ptag "false".data input with
      | .ok rest _ => .ok rest (.boolean false)
      | .panic => .panic
      | .fail => identifier input

/-- binary_operator_number from operator.rs.  The alternatives appear in
source order; tag of the single character lower-than precedes tag of
lower-or-equal, so the two character comparison tokens can never match. -/
def binary_operator_number : Parser BinaryOperator := fun input =>
  match ptag "==".data input with
  | .ok rest _ => .ok rest .equals
  | .panic => .panic
  | .fail =>
  match ptag "!=".data input with
  | .ok rest _ => .ok rest .notEquals
  | .panic => .panic
  | .fail =>
  match ptag "<".data input with
  | .ok rest _ => .ok rest .lessThan
  | .panic => .panic
  | .fail =>
  match ptag ">".data input with
  | .ok rest _ => .ok rest .greaterThan
  | .panic => .panic
  | .fail =>
  match ptag "<=".data input with
  | .ok rest _ => .ok rest .lessEqual
  | .panic => .panic
  | .fail =>
  match ptag ">=".data input with
  | .ok rest _ => .ok rest .greaterEqual
  | .panic => .panic
  | .fail => .fail

/-- binary_operator_string from operator.rs. -/
def binary_operator_string : Parser BinaryOperator := fun input =>
  match ptag "==".data input with
  | .ok rest _ => .ok rest .equals
  | .panic => .panic
  | .fail =>
  match ptag "!=".data input with
  | .ok rest _ => .ok rest .notEquals
  | .panic => .panic
  | .fail =>
  match ptag "=~".data input with
  | .ok rest _ => .ok rest .regexMatch
  | .panic => .panic
  | .fail => .fail

/-- binary_and_operator from operator.rs. -/
def binary_and_operator : Parser BinaryOperator := fun input =>
  match ptag "&&".data input with
  | .ok rest _ => .ok rest .and
  | .panic => .panic
  | .fail => .fail

/-- binary_or_operator from operator.rs. -/
def binary_or_operator : Parser BinaryOperator := fun input =>
  match ptag "||".data input with
  | .ok rest _ => .ok rest .or
  | .panic => .panic
  | .fail => .fail

/-- unary_operator_primary from operator.rs. -/
def unary_operator_primary : Parser UnaryOperator := fun input =>
  match ptag "!".data input with
  | .ok rest _ => .ok rest .not
  | .panic => .panic
  | .fail => .fail

/-! ## Comparison expression parser (non_boolean_expression.rs) -/

/-- One alternative of binary_non_bool: operand parser, whitespace
delimited operator parser, operand parser. -/
def binaryNonBoolAlt (operand : Parser Value) (opParser : Parser BinaryOperator) :
    Parser NonBooleanExpression := fun input =>
  match operand input with
  | .panic => .panic
  | .fail => .fail
  | .ok r₁ v₁ =>
      match opParser (skipWS r₁) with
      | .panic => .panic
      | .fail => .fail
      | .ok r₂ op =>
          match operand (skipWS r₂) with
          | .panic => .panic
          | .fail => .fail
          | .ok r₃ v₂ => .ok r₃ ⟨v₁, op, v₂⟩

/-- binary_non_bool from non_boolean_expression.rs: integer pair, else
float pair, else string pair (first match wins, backtracking to the start
of the input between alternatives). -/
def binary_non_bool : Parser NonBooleanExpression := fun input =>
  match binaryNonBoolAlt integer binary_operator_number input with
  | .ok rest e => .ok rest e
  | .panic => .panic
  | .fail =>
      match binaryNonBoolAlt float binary_operator_number input with
      | .ok rest e => .ok rest e
      | .panic => .panic
      | .fail => binaryNonBoolAlt string binary_operator_string input

/-! ## Boolean expression parser (expression.rs)

The four grammar functions are mutually recursive; the fuel argument is
decremented at every nested call and zero fuel fails. -/

mutual

/-- boolean_value from expression.rs: comparison, else parenthesized
expression, else boolean literal or identifier, else unary. -/
def boolean_value : Nat → Parser BooleanExpression
  | 0 => fun _ => .fail
  | fuel + 1 => fun input =>
      match binary_non_bool input with
      | .ok rest nbe => .ok rest (.nonBoolean nbe)
      | .panic => .panic
      | .fail =>
      match (match pchar '(' input with
             | .panic => PRes.panic
             | .fail => PRes.fail
             | .ok r₁ _ =>
                 match boolean_expression fuel (skipWS r₁) with
                 | .panic => PRes.panic
                 | .fail => PRes.fail
                 | .ok r₂ e =>
                     match pchar ')' (skipWS r₂) with
                     | .panic => PRes.panic
                     | .fail => PRes.fail
                     | .ok r₃ _ => PRes.ok r₃ e) with
      | .ok rest e => .ok rest e
      | .panic => .panic
      | .fail =>
      match (match boolean input with
             | .panic => PRes.panic
             | .fail => PRes.fail
             | .ok rest v =>
                 match v with
                 | .boolean b => PRes.ok rest (BooleanExpression.boolean b)
                 | .identifier n => PRes.ok rest (BooleanExpression.identifier n)
                 | _ => PRes.fail) with
      | .ok rest e => .ok rest e
      | .panic => .panic
      | .fail =>
      match unary_operator_primary input with
      | .panic => .panic
      | .fail => .fail
      | .ok r₁ op =>
          match boolean_value fuel (skipWS r₁) with
          | .panic => .panic
          | .fail => .fail
          | .ok r₂ v => .ok r₂ (.unary op v)

/-- boolean_and from expression.rs: value, and token, recursive chain;
else value, and token, value. -/
def boolean_and : Nat → Parser BooleanExpression
  | 0 => fun _ => .fail
  | fuel + 1 => fun input =>
      match (match boolean_value fuel input with
             | .panic => PRes.panic
             | .fail => PRes.fail
             | .ok r₁ lhs =>
                 match binary_and_operator (skipWS r₁) with
                 | .panic => PRes.panic
                 | .fail => PRes.fail
                 | .ok r₂ op =>
                     match boolean_and fuel (skipWS r₂) with
                     | .panic => PRes.panic
                     | .fail => PRes.fail
                     | .ok r₃ rhs => PRes.ok r₃ (BooleanExpression.binary lhs op rhs)) with
      | .ok rest e => .ok rest e
      | .panic => .panic
      | .fail =>
      match boolean_value fuel input with
      | .panic => .panic
      | .fail => .fail
      | .ok r₁ lhs =>
          match binary_and_operator (skipWS r₁) with
          | .panic => .panic
          | .fail => .fail
          | .ok r₂ op =>
              match boolean_value fuel (skipWS r₂) with
              | .panic => .panic
              | .fail => .fail
              | .ok r₃ rhs => .ok r₃ (.binary lhs op rhs)

/-- boolean_or from expression.rs: value, or token, recursive chain; else
value, or token, value. -/
def boolean_or : Nat → Parser BooleanExpression
  | 0 => fun _ => .fail
  | fuel + 1 => fun input =>
      match (match boolean_value fuel input with
             | .panic => PRes.panic
             | .fail => PRes.fail
             | .ok r₁ lhs =>
                 match binary_or_operator (skipWS r₁) with
                 | .panic => PRes.panic
                 | .fail => PRes.fail
                 | .ok r₂ op =>
                     match boolean_or fuel (skipWS r₂) with
                     | .panic => PRes.panic
                     | .fail => PRes.fail
                     | .ok r₃ rhs => PRes.ok r₃ (BooleanExpression.binary lhs op rhs)) with
      | .ok rest e => .ok rest e
      | .panic => .panic
      | .fail =>
      match boolean_value fuel input with
      | .panic => .panic
      | .fail => .fail
      | .ok r₁ lhs =>
          match binary_or_operator (skipWS r₁) with
          | .panic => .panic
          | .fail => .fail
          | .ok r₂ op =>
              match boolean_value fuel (skipWS r₂) with
              | .panic => .panic
              | .fail => .fail
              | .ok r₃ rhs => .ok r₃ (.binary lhs op rhs)

/-- boolean_expression from expression.rs: and chain, else or chain, else
single value. -/
def boolean_expression : Nat → Parser BooleanExpression
  | 0 => fun _ => .fail
  | fuel + 1 => fun input =>
      match boolean_and fuel input with
      | .ok rest e => .ok rest e
      | .panic => .panic
      | .fail =>
      match boolean_or fuel input with
      | .ok rest e => .ok rest e
      | .panic => .panic
      | .fail => boolean_value fuel input

end

/-- Fuel used at the top level: every nesting level of the grammar consumes
at least one character and costs at most three fuel units. -/
def topFuel (l : List Char) : Nat := 3 * l.length + 4

/-- parse_whole_boolean_expression from expression.rs: the whole input must
be consumed; a leftover remainder is an Expected-end-of-input error, a
parser failure surfaces the Debug text of the nom error. -/
def parse_whole_boolean_expression (input : String) : Outcome BooleanExpression :=
  match boolean_expression (topFuel input.data) input.data with
  | .ok [] parsed => .ok parsed
  | .ok remaining _ => .err (.trailingInput (String.mk remaining))
  | .fail => .err .nomParse
  | .panic => .panic

/-! ## Evaluation (non_boolean_expression.rs, expression.rs) -/

/-- The external regex crate, abstracted: compile returns none exactly when
Regex::new fails, otherwise the matcher of is_match. -/
structure RegexEngine : Type where
  compile : String → Option (String → Bool)

/-- A regex engine for concrete witnesses whose inputs never reach regex
code; its particular behaviour is irrelevant to every theorem using it. -/
def noRegex : RegexEngine := ⟨fun _ => none⟩

/-- eval_string from non_boolean_expression.rs. -/
def NonBooleanExpression.eval_string (rx : RegexEngine) (e : NonBooleanExpression) :
    Res Bool :=
  match e with
  | ⟨.stringLiteral lhs, op, .stringLiteral rhs⟩ =>
      match op with
      | .equals => .ok (lhs = rhs)
      | .notEquals => .ok (lhs ≠ rhs)
      | .regexMatch =>
          match rx.compile rhs with
          | none => .err (.invalidRegex rhs)
          | some isMatch => .ok (isMatch lhs)
      | _ => .err (.invalidBinaryForString op)
  | _ => .err (.notBinaryString e)

/-- eval_integer from non_boolean_expression.rs. -/
def NonBooleanExpression.eval_integer (e : NonBooleanExpression) : Res Bool :=
  match e with
  | ⟨.integerLiteral lhs, op, .integerLiteral rhs⟩ =>
      match op with
      | .equals => .ok (lhs = rhs)
      | .notEquals => .ok (lhs ≠ rhs)
      | .lessThan => .ok (lhs < rhs)
      | .greaterThan => .ok (lhs > rhs)
      | .lessEqual => .ok (lhs ≤ rhs)
      | .greaterEqual => .ok (lhs ≥ rhs)
      | _ => .err (.invalidBinaryForNumber op)
  | _ => .err (.notBinaryIntegerFromIntPath e)

/-- eval_float from non_boolean_expression.rs.  Its else branch renders the
same Integer wording as eval_integer (source line 60). -/
def NonBooleanExpression.eval_float (e : NonBooleanExpression) : Res Bool :=
  match e with
  | ⟨.floatLiteral lhs, op, .floatLiteral rhs⟩ =>
      match op with
      | .equals => .ok (lhs = rhs)
      | .notEquals => .ok (lhs ≠ rhs)
      | .lessThan => .ok (lhs < rhs)
      | .greaterThan => .ok (lhs > rhs)
      | .lessEqual => .ok (lhs ≤ rhs)
      | .greaterEqual => .ok (lhs ≥ rhs)
      | _ => .err (.invalidBinaryForNumber op)
  | _ => .err (.notBinaryIntegerFromFloatPath e)

/-- NonBooleanExpression.evaluate: dispatch on the literal kind of the left
operand, falling through to the float path for anything that is neither a
string nor an integer literal. -/
def NonBooleanExpression.evaluate (rx : RegexEngine) (e : NonBooleanExpression) :
    Res Bool :=
  match e.lhs with
  | .stringLiteral _ => e.eval_string rx
  | .integerLiteral _ => e.eval_integer
  | _ => e.eval_float

/-- NonBooleanExpression.use_context: resolve the left then the right
operand. -/
def NonBooleanExpression.use_context (e : NonBooleanExpression) (context : Context) :
    Res NonBooleanExpression :=
  match e.lhs.use_context context with
  | .err err => .err err
  | .ok l =>
      match e.rhs.use_context context with
      | .err err => .err err
      | .ok r => .ok ⟨l, e.op, r⟩

/-- BooleanExpression.evaluate from expression.rs.  The binary case models
the Rust expression Ok(lhs.evaluate()? && rhs.evaluate()?) faithfully: the
Rust boolean operators evaluate their right operand lazily, so a false left
operand of And (true of Or) returns without touching the right subtree. -/
def BooleanExpression.evaluate (rx : RegexEngine) : BooleanExpression → Res Bool
  | .boolean b => .ok b
  | .identifier name => .err (.contextBeforeEval name)
  | .nonBoolean nbe => nbe.evaluate rx
  | .binary lhs op rhs =>
      match op with
      | .and =>
          (match lhs.evaluate rx with
           | .err e => .err e
           | .ok a => if a then rhs.evaluate rx else .ok false)
      | .or =>
          (match lhs.evaluate rx with
           | .err e => .err e
           | .ok a => if a then .ok true else rhs.evaluate rx)
      | _ => .err (.invalidBinaryForBoolean op)
  | .unary op rhs =>
      match op with
      | .not =>
          match rhs.evaluate rx with
          | .err e => .err e
          | .ok b => .ok (!b)

/-- BooleanExpression.use_context from expression.rs.  An identifier in
boolean position succeeds only when the lookup yields a boolean; every
other outcome, including a missing identifier, becomes the
Value-should-be-a-boolean error. -/
def BooleanExpression.use_context : BooleanExpression → Context → Res BooleanExpression
  | .identifier name, context =>
      (match identifierUseContext name context with
       | .ok (.boolean b) => .ok (.boolean b)
       | _ => .err (.valueShouldBeBoolean name))
  | .boolean b, _ => .ok (.boolean b)
  | .nonBoolean nbe, context =>
      (match nbe.use_context context with
       | .ok e => .ok (.nonBoolean e)
       | .err err => .err err)
  | .binary lhs op rhs, context =>
      (match lhs.use_context context with
       | .err err => .err err
       | .ok l =>
           match rhs.use_context context with
           | .err err => .err err
           | .ok r => .ok (.binary l op r))
  | .unary op operand, context =>
      (match operand.use_context context with
       | .err err => .err err
       | .ok v => .ok (.unary op v))

/-- evaluate from lib.rs: parse, bind the context, evaluate. -/
def evaluate (rx : RegexEngine) (expression : String) (context : Context) :
    Outcome Bool :=
  match parse_whole_boolean_expression expression with
  | .panic => .panic
  | .err e => .err e
  | .ok expr =>
      match expr.use_context context with
      | .err e => .err e
      | .ok bound =>
          match bound.evaluate rx with
          | .err e => .err e
          | .ok b => .ok b

/-- The empty context. -/
def emptyContext : Context := fun _ => none

/-! ## Auxiliary predicates used by the claim theorems -/

/-- Whether pat occurs as a contiguous sublist of the second list. -/
def listInfix (pat : List Char) : List Char → Bool
  | [] => pat.isEmpty
  | c :: rest => pat.isPrefixOf (c :: rest) || listInfix pat rest

/-- Whether pat occurs as a substring of hay. -/
def strContains (hay pat : String) : Bool := listInfix pat.data hay.data

/-- Whether a Value is the Identifier variant. -/
def Value.isIdentifier : Value → Bool
  | .identifier _ => true
  | _ => false

/-- Whether a Value is the StringLiteral variant. -/
def Value.isStringLit : Value → Bool
  | .stringLiteral _ => true
  | _ => false

/-- Whether a Value is the IntegerLiteral variant. -/
def Value.isIntegerLit : Value → Bool
  | .integerLiteral _ => true
  | _ => false

/-- Whether a Value is the FloatLiteral variant. -/
def Value.isFloatLit : Value → Bool
  | .floatLiteral _ => true
  | _ => false

/-- A BooleanExpression containing no identifier in boolean position and no
identifier operand inside a comparison. -/
def IdentFree : BooleanExpression → Bool
  | .identifier _ => false
  | .boolean _ => true
  | .nonBoolean e => !e.lhs.isIdentifier && !e.rhs.isIdentifier
  | .binary lhs _ rhs => IdentFree lhs && IdentFree rhs
  | .unary _ operand => IdentFree operand

/-- Whether an evaluation result is the contract violation error of
expression.rs line 25 (an identifier reached evaluation unbound). -/
def isContractViolation : Res Bool → Bool
  | .err (.contextBeforeEval _) => true
  | _ => false

/-! ## Claim C1 -/

/-- C1: the spec claims a lower-or-equal and a greater-or-equal comparison of
two integer literals parse and evaluate with native integer comparison.  In
the code the number operator parser tries the single character tokens before
the two character ones, so the two character tokens are consumed as lessThan
resp. greaterThan, the leftover equals sign makes the operand parser fail,
and the whole parse fails: evaluate returns a parse error on both inputs.
This contradicts the accepted grammar documented on the evaluate entry point
of lib.rs, which lists both tokens for integers and floats. -/
theorem c1_lessEqual_greaterEqual_never_parse :
    evaluate noRegex "1 <= 2" emptyContext = .err .nomParse ∧
    evaluate noRegex "1 >= 2" emptyContext = .err .nomParse ∧
    binary_operator_number "<= 2".data = .ok "= 2".data .lessThan ∧
    binary_operator_number ">= 2".data = .ok "= 2".data .greaterThan := by
  refine ⟨rfl, rfl, ?_, ?_⟩ <;> decide

/-! ## Claim C9 -/

/-- C9: the spec claims evaluate is total and never panics, including on an
integer literal above the i64 range.  The integer literal parser of value.rs
calls unwrap on parse i64, which panics exactly there: the model evaluates
the claimed failing input to a panic, while the same comparison with the
largest i64 value returns normally. -/
theorem c9_integer_overflow_panics :
    evaluate noRegex "99999999999999999999 == 1" emptyContext = .panic ∧
    evaluate noRegex "9223372036854775807 == 1" emptyContext = .ok false := by
  exact ⟨rfl, rfl⟩

/-! ## Claim C4 -/

/-- C4 counterexample: the whitespace variant with trailing spaces, passed
through the public entry point, is rejected with a trailing input error
instead of evaluating to true: the grammar discards whitespace only after
operators and inside parentheses, and parse_whole_boolean_expression
requires the remainder to be empty. -/
theorem c4_counterexample :
    evaluate noRegex "!  ( !   true)  " emptyContext = .err (.trailingInput "  ") ∧
    evaluate noRegex "!  ( !   true)  " emptyContext ≠ .ok true := by
  exact ⟨rfl, by decide⟩

/-- C4 amended: double negation evaluates to true for every context, and the
whitespace variant parses identically provided its trailing spaces are
removed; with the trailing spaces the public entry point returns the
Expected-end-of-input error instead. -/
theorem c4_double_negation (rx : RegexEngine) (ctx : Context) :
    evaluate rx "!(!true)" ctx = .ok true ∧
    evaluate rx "!  ( !   true)" ctx = .ok true ∧
    parse_whole_boolean_expression "!  ( !   true)" =
      parse_whole_boolean_expression "!(!true)" ∧
    evaluate rx "!  ( !   true)  " ctx = .err (.trailingInput "  ") := by
  exact ⟨rfl, rfl, rfl, rfl⟩

/-! ## Claim C5 -/

/-- C5: a conjunction followed by an unparenthesized disjunction fails to
parse as a complete expression for every context (the and-chain consumes the
first two operands and the disjunctive tail is reported as trailing input),
while the parenthesized variant parses; evaluating the parenthesized variant
against the empty context fails only at binding time. -/
theorem c5_mixed_chain_rejected (rx : RegexEngine) (ctx : Context) :
    evaluate rx "identifier && identifier || identifier" ctx
      = .err (.trailingInput " || identifier") ∧
    parse_whole_boolean_expression "identifier && (identifier || identifier)" =
      .ok (.binary (.identifier "identifier") .and
        (.binary (.identifier "identifier") .or (.identifier "identifier"))) ∧
    evaluate rx "identifier && (identifier || identifier)" emptyContext
      = .err (.valueShouldBeBoolean "identifier") := by
  exact ⟨rfl, rfl, rfl⟩

/-! ## Claim C3 -/

/-- C3 counterexample: an And node whose left child evaluates to false and
whose right child evaluates to an error returns Ok false, not the error (and
dually for Or with a true left child): the Rust conjunction inside
Ok(lhs.evaluate()? && rhs.evaluate()?) evaluates its right operand lazily. -/
theorem c3_counterexample :
    BooleanExpression.evaluate noRegex (.boolean false) = .ok false ∧
    BooleanExpression.evaluate noRegex
        (.nonBoolean ⟨.stringLiteral "a", .lessThan, .stringLiteral "b"⟩)
      = .err (.invalidBinaryForString .lessThan) ∧
    BooleanExpression.evaluate noRegex
        (.binary (.boolean false) .and
          (.nonBoolean ⟨.stringLiteral "a", .lessThan, .stringLiteral "b"⟩))
      = .ok false ∧
    BooleanExpression.evaluate noRegex
        (.binary (.boolean true) .or
          (.nonBoolean ⟨.stringLiteral "a", .lessThan, .stringLiteral "b"⟩))
      = .ok true := by
  exact ⟨rfl, by decide, rfl, rfl⟩

/-- C3 amended: evaluating a Binary And node evaluates the left operand
first; a false left operand short-circuits to Ok false without evaluating
the right operand, a true left operand yields the right operand result, and
a left error propagates.  Dually for Or with the roles of true and false
exchanged. -/
theorem c3_and_or_short_circuit (rx : RegexEngine) (lhs rhs : BooleanExpression) :
    BooleanExpression.evaluate rx (.binary lhs .and rhs) =
      (match BooleanExpression.evaluate rx lhs with
       | .err e => .err e
       | .ok true => BooleanExpression.evaluate rx rhs
       | .ok false => .ok false) ∧
    BooleanExpression.evaluate rx (.binary lhs .or rhs) =
      (match BooleanExpression.evaluate rx lhs with
       | .err e => .err e
       | .ok true => .ok true
       | .ok false => BooleanExpression.evaluate rx rhs) := by
  constructor <;>
    · show (match BooleanExpression.evaluate rx lhs with
            | .err e => _
            | .ok a => _) = _
      cases h : BooleanExpression.evaluate rx lhs with
      | err e => rfl
      | ok a => cases a <;> rfl

/-! ## Claim C6 -/

/-- C6 counterexample: when evaluation falls through to the float path and
the operands are not both floats, the error text is the mislabeled
Not-a-Binary-Integer-expression message of eval_float (source line 60); it
does name the malformed pair, but it is not a "not a binary float
expression" error: the word float does not occur in it. -/
theorem c6_counterexample :
    NonBooleanExpression.evaluate noRegex ⟨.boolean true, .equals, .boolean true⟩
      = .err (.notBinaryIntegerFromFloatPath ⟨.boolean true, .equals, .boolean true⟩) ∧
    EvalError.message (.notBinaryIntegerFromFloatPath ⟨.boolean true, .equals, .boolean true⟩)
      = "Not a Binary Integer expression: NonBooleanExpression(Boolean(true), Equals, Boolean(true))" ∧
    strContains (EvalError.message
      (.notBinaryIntegerFromFloatPath ⟨.boolean true, .equals, .boolean true⟩)) "float" = false ∧
    strContains (EvalError.message
      (.notBinaryIntegerFromFloatPath ⟨.boolean true, .equals, .boolean true⟩)) "Float" = false := by
  refine ⟨rfl, by decide, by decide, by decide⟩

/-- C6 amended: a comparison whose left operand is neither a string literal
nor an integer literal dispatches to eval_float, and when the operands are
not both float literals it fails with the error of the eval_float else
branch, which names the malformed operand pair but is rendered with the
Not-a-Binary-Integer-expression wording of the source. -/
theorem c6_fallthrough_to_float (rx : RegexEngine) (e : NonBooleanExpression)
    (h1 : e.lhs.isStringLit = false) (h2 : e.lhs.isIntegerLit = false) :
    e.evaluate rx = e.eval_float ∧
    ((e.lhs.isFloatLit && e.rhs.isFloatLit) = false →
      e.evaluate rx = .err (.notBinaryIntegerFromFloatPath e)) := by
  obtain ⟨l, op, r⟩ := e
  constructor
  · cases l with
    | stringLiteral s => simp [Value.isStringLit] at h1
    | integerLiteral i => simp [Value.isIntegerLit] at h2
    | identifier n => rfl
    | floatLiteral q => rfl
    | boolean b => rfl
  · intro h3
    cases l with
    | stringLiteral s => simp [Value.isStringLit] at h1
    | integerLiteral i => simp [Value.isIntegerLit] at h2
    | identifier n => cases r <;> rfl
    | boolean b => cases r <;> rfl
    | floatLiteral q =>
        cases r with
        | floatLiteral q₂ => exact absurd h3 (by simp [Value.isFloatLit])
        | identifier n => rfl
        | stringLiteral s => rfl
        | integerLiteral i => rfl
        | boolean b => rfl

/-- C6 witness: a boolean pair dispatches to the float path and yields the
else branch error there. -/
theorem c6_witness :
    Value.isStringLit (Value.boolean true) = false ∧
    Value.isIntegerLit (Value.boolean true) = false ∧
    (Value.isFloatLit (Value.boolean true) && Value.isFloatLit (Value.boolean false)) = false ∧
    NonBooleanExpression.evaluate noRegex ⟨.boolean true, .equals, .boolean false⟩
      = NonBooleanExpression.eval_float ⟨.boolean true, .equals, .boolean false⟩ ∧
    NonBooleanExpression.evaluate noRegex ⟨.boolean true, .equals, .boolean false⟩
      = .err (.notBinaryIntegerFromFloatPath ⟨.boolean true, .equals, .boolean false⟩) :=
  ⟨by decide, by decide, by decide,
   (c6_fallthrough_to_float noRegex ⟨.boolean true, .equals, .boolean false⟩
     (by decide) (by decide)).1,
   (c6_fallthrough_to_float noRegex ⟨.boolean true, .equals, .boolean false⟩
     (by decide) (by decide)).2 (by decide)⟩

/-! ## Claim C7 -/

/-- C7 counterexample: an identifier in pure boolean position that is absent
from the context does not produce an identifier-not-found error; binding
fails with the Value-should-be-a-boolean message instead, because
BooleanExpression.use_context pattern matches only on a successful boolean
lookup and collapses every other outcome into that message. -/
theorem c7_counterexample :
    evaluate noRegex "x" emptyContext = .err (.valueShouldBeBoolean "x") ∧
    evaluate noRegex "x" emptyContext ≠ .err (.identifierNotFound "x") ∧
    strContains (EvalError.message (.valueShouldBeBoolean "x")) "not found" = false := by
  exact ⟨rfl, by decide, by decide⟩

/-- C7 amended: an identifier absent from the context makes binding fail; in
comparison operand position the error is the identifier-not-found message
naming the identifier, while in pure boolean position the error is the
Value-should-be-a-boolean message; in particular evaluating a comparison of
the identifier mode with an integer literal against the empty context fails
with the identifier-not-found error naming mode. -/
theorem c7_missing_identifier (rx : RegexEngine) (name : String) (ctx : Context)
    (h : ctx name = none) :
    Value.use_context (.identifier name) ctx = .err (.identifierNotFound name) ∧
    EvalError.message (.identifierNotFound name) = "Identifier not found in context: " ++ name ∧
    BooleanExpression.use_context (.identifier name) ctx = .err (.valueShouldBeBoolean name) ∧
    evaluate rx "mode == 1" emptyContext = .err (.identifierNotFound "mode") := by
  refine ⟨?_, rfl, ?_, rfl⟩
  · simp [Value.use_context, identifierUseContext, h]
  · simp [BooleanExpression.use_context, identifierUseContext, h]

/-- C7 witness: instantiation at a concrete missing identifier. -/
theorem c7_witness :
    emptyContext "missing" = none ∧
    Value.use_context (.identifier "missing") emptyContext
      = .err (.identifierNotFound "missing") ∧
    BooleanExpression.use_context (.identifier "missing") emptyContext
      = .err (.valueShouldBeBoolean "missing") ∧
    evaluate noRegex "mode == 1" emptyContext = .err (.identifierNotFound "mode") :=
  ⟨rfl, (c7_missing_identifier noRegex "missing" emptyContext rfl).1,
   (c7_missing_identifier noRegex "missing" emptyContext rfl).2.2.1,
   (c7_missing_identifier noRegex "missing" emptyContext rfl).2.2.2⟩

/-! ## Claim C10 -/

/-- A successful Value.use_context never returns an identifier: a hit in the
context maps through valueOfContextValue, whose four cases are literals. -/
theorem value_use_context_no_identifier (v v₂ : Value) (ctx : Context)
    (h : v.use_context ctx = .ok v₂) : v₂.isIdentifier = false := by
  cases v with
  | identifier n =>
      simp only [Value.use_context, identifierUseContext] at h
      cases hc : ctx n with
      | none => rw [hc] at h; cases h
      | some cv =>
          rw [hc] at h
          injection h with h₂
          rw [← h₂]
          cases cv <;> rfl
  | stringLiteral s => injection h with h₂; rw [← h₂]; rfl
  | integerLiteral i => injection h with h₂; rw [← h₂]; rfl
  | floatLiteral q => injection h with h₂; rw [← h₂]; rfl
  | boolean b => injection h with h₂; rw [← h₂]; rfl

/-- A successful NonBooleanExpression.use_context leaves no identifier in
either operand. -/
theorem nonbool_use_context_no_identifier (e e₂ : NonBooleanExpression) (ctx : Context)
    (h : e.use_context ctx = .ok e₂) :
    e₂.lhs.isIdentifier = false ∧ e₂.rhs.isIdentifier = false := by
  unfold NonBooleanExpression.use_context at h
  cases h₁ : e.lhs.use_context ctx with
  | err er => rw [h₁] at h; cases h
  | ok l =>
      rw [h₁] at h
      cases h₂ : e.rhs.use_context ctx with
      | err er => rw [h₂] at h; cases h
      | ok r =>
          rw [h₂] at h
          injection h with h₃
          rw [← h₃]
          exact ⟨value_use_context_no_identifier _ _ _ h₁,
                 value_use_context_no_identifier _ _ _ h₂⟩

/-- A successful BooleanExpression.use_context yields a fully literal tree. -/
theorem use_context_identFree (t : BooleanExpression) (ctx : Context) :
    ∀ t₂, t.use_context ctx = .ok t₂ → IdentFree t₂ = true := by
  induction t with
  | identifier n =>
      intro t₂ h
      simp only [BooleanExpression.use_context] at h
      split at h
      · injection h with h₂; rw [← h₂]; rfl
      · cases h
  | boolean b =>
      intro t₂ h
      simp only [BooleanExpression.use_context] at h
      injection h with h₂; rw [← h₂]; rfl
  | nonBoolean e =>
      intro t₂ h
      simp only [BooleanExpression.use_context] at h
      split at h
      · rename_i e₂ heq
        injection h with h₂
        obtain ⟨hl, hr⟩ := nonbool_use_context_no_identifier e e₂ ctx heq
        rw [← h₂]
        simp [IdentFree, hl, hr]
      · cases h
  | binary l op r ihl ihr =>
      intro t₂ h
      simp only [BooleanExpression.use_context] at h
      split at h
      · cases h
      · rename_i l₂ heql
        split at h
        · cases h
        · rename_i r₂ heqr
          injection h with h₂
          rw [← h₂]
          simp [IdentFree, ihl l₂ heql, ihr r₂ heqr]
  | unary op v ihv =>
      intro t₂ h
      simp only [BooleanExpression.use_context] at h
      split at h
      · cases h
      · rename_i v₂ heq
        injection h with h₂
        rw [← h₂]
        simp [IdentFree, ihv v₂ heq]

/-- Evaluating a comparison node never yields the contract violation error:
every branch of eval_string, eval_integer and eval_float produces a
different error or a boolean. -/
theorem nbe_evaluate_no_contract (rx : RegexEngine) (e : NonBooleanExpression) :
    isContractViolation (e.evaluate rx) = false := by
  obtain ⟨l, op, r⟩ := e
  cases l with
  | stringLiteral s =>
      cases r with
      | stringLiteral s₂ =>
          cases op <;> try rfl
          · simp only [NonBooleanExpression.evaluate, NonBooleanExpression.eval_string]
            cases rx.compile s₂ <;> rfl
      | identifier n => cases op <;> rfl
      | integerLiteral i => cases op <;> rfl
      | floatLiteral q => cases op <;> rfl
      | boolean b => cases op <;> rfl
  | integerLiteral i => cases r <;> cases op <;> rfl
  | identifier n => cases r <;> cases op <;> rfl
  | floatLiteral q => cases r <;> cases op <;> rfl
  | boolean b => cases r <;> cases op <;> rfl

/-- Evaluating an identifier free tree never yields the contract violation
error. -/
theorem identFree_no_contract (rx : RegexEngine) (t : BooleanExpression)
    (h : IdentFree t = true) : isContractViolation (t.evaluate rx) = false := by
  induction t with
  | identifier n => simp [IdentFree] at h
  | boolean b => rfl
  | nonBoolean e => exact nbe_evaluate_no_contract rx e
  | binary l op r ihl ihr =>
      simp only [IdentFree, Bool.and_eq_true] at h
      obtain ⟨hl, hr⟩ := h
      cases op
      case and =>
        simp only [BooleanExpression.evaluate]
        cases hev : BooleanExpression.evaluate rx l with
        | err e =>
            have hc := ihl hl
            rw [hev] at hc
            exact hc
        | ok a =>
            cases a
            · rfl
            · exact ihr hr
      case or =>
        simp only [BooleanExpression.evaluate]
        cases hev : BooleanExpression.evaluate rx l with
        | err e =>
            have hc := ihl hl
            rw [hev] at hc
            exact hc
        | ok a =>
            cases a
            · exact ihr hr
            · rfl
      all_goals rfl
  | unary op v ihv =>
      simp only [IdentFree] at h
      cases op
      simp only [BooleanExpression.evaluate]
      cases hev : BooleanExpression.evaluate rx v with
      | err e =>
          have hc := ihv h
          rw [hev] at hc
          exact hc
      | ok b => rfl

/-- C10: whenever use_context succeeds on a parsed tree, the returned tree
is fully literal (no identifier in boolean position, no identifier operand
inside a comparison), and evaluating it never produces the
context-should-be-used-before-evaluation contract violation error. -/
theorem c10_bound_tree_fully_literal (ctx : Context) (t t₂ : BooleanExpression)
    (rx : RegexEngine) (h : t.use_context ctx = .ok t₂) :
    IdentFree t₂ = true ∧ isContractViolation (t₂.evaluate rx) = false :=
  have hf := use_context_identFree t ctx t₂ h
  ⟨hf, identFree_no_contract rx t₂ hf⟩

/-- A context binding one boolean identifier, for the C10 witness. -/
def ctxBoolA : Context := fun n => if n = "a" then some (.boolean true) else none

/-- C10 witness: instantiation at a concrete tree and context. -/
theorem c10_witness :
    BooleanExpression.use_context (.binary (.identifier "a") .and (.boolean true)) ctxBoolA
      = .ok (.binary (.boolean true) .and (.boolean true)) ∧
    IdentFree (.binary (.boolean true) .and (.boolean true)) = true ∧
    isContractViolation (BooleanExpression.evaluate noRegex
      (.binary (.boolean true) .and (.boolean true))) = false :=
  ⟨by decide,
   (c10_bound_tree_fully_literal ctxBoolA
     (.binary (.identifier "a") .and (.boolean true))
     (.binary (.boolean true) .and (.boolean true)) noRegex (by decide)).1,
   (c10_bound_tree_fully_literal ctxBoolA
     (.binary (.identifier "a") .and (.boolean true))
     (.binary (.boolean true) .and (.boolean true)) noRegex (by decide)).2⟩

/-! ## Parser lemma kit

Facts about the atomic parsers on inputs split as a recognized prefix
followed by a remainder, used by the universally quantified claims. -/

/-- The head of the list, if any, falsifies p. -/
def headFails (p : Char → Bool) : List Char → Bool
  | [] => true
  | c :: _ => !p c

theorem takeWhile_append_all {p : Char → Bool} {xs rest : List Char}
    (hxs : ∀ c ∈ xs, p c = true) (hrest : headFails p rest = true) :
    (xs ++ rest).takeWhile p = xs := by
  induction xs with
  | nil =>
      cases rest with
      | nil => rfl
      | cons c t =>
          simp only [headFails, Bool.not_eq_true'] at hrest
          simp [List.takeWhile_cons, hrest]
  | cons x xt ih =>
      have hx : p x = true := hxs x (by simp)
      simp only [List.cons_append, List.takeWhile_cons, hx, if_true]
      rw [ih (fun c hc => hxs c (by simp [hc]))]

theorem dropWhile_append_all {p : Char → Bool} {xs rest : List Char}
    (hxs : ∀ c ∈ xs, p c = true) (hrest : headFails p rest = true) :
    (xs ++ rest).dropWhile p = rest := by
  induction xs with
  | nil =>
      cases rest with
      | nil => rfl
      | cons c t =>
          simp only [headFails, Bool.not_eq_true'] at hrest
          simp [List.dropWhile_cons, hrest]
  | cons x xt ih =>
      have hx : p x = true := hxs x (by simp)
      simp only [List.cons_append, List.dropWhile_cons, hx, if_true]
      exact ih (fun c hc => hxs c (by simp [hc]))

theorem takeWhile1_append {p : Char → Bool} {xs rest : List Char} (hne : xs ≠ [])
    (hxs : ∀ c ∈ xs, p c = true) (hrest : headFails p rest = true) :
    takeWhile1 p (xs ++ rest) = .ok rest xs := by
  unfold takeWhile1
  rw [takeWhile_append_all hxs hrest, dropWhile_append_all hxs hrest]
  cases xs with
  | nil => exact absurd rfl hne
  | cons x xt => rfl

theorem takeWhile1_fail {p : Char → Bool} {input : List Char}
    (h : headFails p input = true) : takeWhile1 p input = .fail := by
  cases input with
  | nil => rfl
  | cons c t =>
      simp only [headFails, Bool.not_eq_true'] at h
      simp [takeWhile1, List.takeWhile_cons, h]

theorem ptag_self_append (s rest : List Char) : ptag s (s ++ rest) = .ok rest s := by
  unfold ptag
  rw [if_pos, List.drop_left]
  induction s with
  | nil => simp [List.isPrefixOf]
  | cons c t ih => simp [List.isPrefixOf, ih]

theorem pchar_cons (c : Char) (t : List Char) : pchar c (c :: t) = .ok t c := by
  simp [pchar]

theorem pchar_fail {c : Char} {input : List Char}
    (h : headFails (fun d => d == c) input = true) : pchar c input = .fail := by
  cases input with
  | nil => rfl
  | cons d t =>
      simp only [headFails, Bool.not_eq_true', beq_eq_false_iff_ne] at h
      simp [pchar, h]

theorem skipWS_nil : skipWS [] = [] := rfl

theorem skipWS_cons_false {c : Char} {l : List Char} (h : wsChar c = false) :
    skipWS (c :: l) = c :: l := by
  simp [skipWS, List.dropWhile_cons, h]

theorem skipWS_cons_true {c : Char} {l : List Char} (h : wsChar c = true) :
    skipWS (c :: l) = skipWS l := by
  simp [skipWS, List.dropWhile_cons, h]

/-! Character class disjointness facts used for identifier shaped inputs. -/

theorem isAlpha_not_digit {c : Char} (h : c.isAlpha = true) : c.isDigit = false := by
  by_contra hne
  rw [Bool.not_eq_false] at hne
  simp only [Char.isAlpha, Char.isUpper, Char.isLower, Char.isDigit, Bool.or_eq_true,
    Bool.and_eq_true, decide_eq_true_eq, ge_iff_le, UInt32.le_def, BitVec.le_def,
    show (UInt32.toBitVec 48).toNat = 48 from rfl,
    show (UInt32.toBitVec 57).toNat = 57 from rfl,
    show (UInt32.toBitVec 65).toNat = 65 from rfl,
    show (UInt32.toBitVec 90).toNat = 90 from rfl,
    show (UInt32.toBitVec 97).toNat = 97 from rfl,
    show (UInt32.toBitVec 122).toNat = 122 from rfl] at h hne
  omega

theorem identChar_not_digit {c : Char} (h : identChar c = true) : digitChar c = false := by
  simp only [identChar, Bool.or_eq_true, decide_eq_true_eq] at h
  rcases h with (h | h) | h
  · exact isAlpha_not_digit h
  · subst h; rfl
  · subst h; rfl

theorem isAlpha_ne_quote {c : Char} (h : c.isAlpha = true) : (c == quoteChar) = false := by
  rw [beq_eq_false_iff_ne]
  intro he
  subst he
  simp [Char.isAlpha, Char.isUpper, Char.isLower, quoteChar] at h

theorem identChar_ne_quote {c : Char} (h : identChar c = true) : (c == quoteChar) = false := by
  simp only [identChar, Bool.or_eq_true, decide_eq_true_eq] at h
  rcases h with (h | h) | h
  · exact isAlpha_ne_quote h
  · subst h; rfl
  · subst h; rfl

theorem digitChar_not_ws {c : Char} (h : digitChar c = true) : wsChar c = false := by
  by_contra hne
  rw [Bool.not_eq_false] at hne
  simp only [wsChar, Bool.or_eq_true, decide_eq_true_eq] at hne
  rcases hne with ((hne | hne) | hne) | hne <;> subst hne <;> simp [digitChar] at h

/-! Behaviour of the value parsers on identifier shaped and literal shaped
inputs. -/

theorem identifier_ok {xs rest : List Char} (hne : xs ≠ [])
    (hxs : ∀ c ∈ xs, identChar c = true) (hrest : headFails identChar rest = true)
    (ht : xs ≠ "true".data) (hf : xs ≠ "false".data) :
    identifier (xs ++ rest) = .ok rest (.identifier (String.mk xs)) := by
  unfold identifier
  rw [takeWhile1_append hne hxs hrest]
  simp [ht, hf]

theorem identifier_fail_head {input : List Char} (h : headFails identChar input = true) :
    identifier input = .fail := by
  unfold identifier
  rw [takeWhile1_fail h]

theorem integer_eq_ident {input : List Char} (h : headFails digitChar input = true) :
    integer input = identifier input := by
  unfold integer
  rw [takeWhile1_fail h]

theorem float_eq_ident {input : List Char} (h : headFails digitChar input = true) :
    float input = identifier input := by
  unfold float
  rw [takeWhile1_fail h]

theorem string_eq_ident {input : List Char}
    (h : headFails (fun d => d == quoteChar) input = true) :
    string input = identifier input := by
  unfold string
  rw [pchar_fail h]

theorem integer_ok_digits (ds rest : List Char) (hne : ds ≠ [])
    (hdig : ∀ c ∈ ds, digitChar c = true) (hrest : headFails digitChar rest = true)
    (hle : digitsToNat ds ≤ i64Max) :
    integer (ds ++ rest) = .ok rest (.integerLiteral (Int.ofNat (digitsToNat ds))) := by
  unfold integer
  rw [takeWhile1_append hne hdig hrest]
  simp [hle]

theorem string_ok_quoted {s rest : List Char} (hne : s ≠ [])
    (hs : ∀ c ∈ s, c ≠ quoteChar) :
    string (quoteChar :: (s ++ quoteChar :: rest))
      = .ok rest (.stringLiteral (String.mk s)) := by
  have hp : ∀ c ∈ s, (fun c => c != quoteChar) c = true := fun c hc => by
    simpa [bne_iff_ne] using hs c hc
  have hh : headFails (fun c => c != quoteChar) (quoteChar :: rest) = true := by
    simp [headFails]
  unfold string
  simp only [pchar_cons, takeWhile1_append hne hp hh]

/-- The head character of an identifier shaped input falsifies the digit
predicate. -/
theorem headFails_digit_of_ident {x : Char} {t rest : List Char}
    (hx : identChar x = true) : headFails digitChar ((x :: t) ++ rest) = true := by
  simp [headFails, identChar_not_digit hx]

/-- The head character of an identifier shaped input is not a quote. -/
theorem headFails_quote_of_ident {x : Char} {t rest : List Char}
    (hx : identChar x = true) :
    headFails (fun d => d == quoteChar) ((x :: t) ++ rest) = true := by
  simp only [List.cons_append, headFails, identChar_ne_quote hx, Bool.not_false]

/-! ## Claim C2 parse lemmas -/

/-- Parsing an identifier, an equality token, and a digit literal. -/
theorem c2_bnb_int_eq {x : Char} {xt ds : List Char}
    (hxs : ∀ c ∈ x :: xt, identChar c = true)
    (ht : x :: xt ≠ "true".data) (hf : x :: xt ≠ "false".data)
    (hdne : ds ≠ []) (hdig : ∀ c ∈ ds, digitChar c = true)
    (hle : digitsToNat ds ≤ i64Max) :
    binary_non_bool ((x :: xt) ++ (' ' :: '=' :: '=' :: ' ' :: ds))
      = .ok [] ⟨.identifier (String.mk (x :: xt)), .equals,
               .integerLiteral (Int.ofNat (digitsToNat ds))⟩ := by
  have hx : identChar x = true := hxs x (by simp)
  have hident : identifier ((x :: xt) ++ (' ' :: '=' :: '=' :: ' ' :: ds))
      = .ok (' ' :: '=' :: '=' :: ' ' :: ds) (.identifier (String.mk (x :: xt))) :=
    identifier_ok (by simp) hxs rfl ht hf
  have hint : integer ((x :: xt) ++ (' ' :: '=' :: '=' :: ' ' :: ds))
      = .ok (' ' :: '=' :: '=' :: ' ' :: ds) (.identifier (String.mk (x :: xt))) := by
    rw [integer_eq_ident (headFails_digit_of_ident hx), hident]
  obtain ⟨d, dt, rfl⟩ : ∃ d dt, ds = d :: dt := by
    cases ds with
    | nil => exact absurd rfl hdne
    | cons d dt => exact ⟨d, dt, rfl⟩
  have hd : digitChar d = true := hdig d (by simp)
  have hskip2 : skipWS (' ' :: d :: dt) = d :: dt := by
    rw [skipWS_cons_true (show wsChar ' ' = true from rfl),
      skipWS_cons_false (digitChar_not_ws hd)]
  have hdint : integer (d :: dt)
      = .ok [] (.integerLiteral (Int.ofNat (digitsToNat (d :: dt)))) := by
    have h0 := integer_ok_digits (d :: dt) [] hdne hdig rfl hle
    rwa [List.append_nil] at h0
  have hskip1 : skipWS (' ' :: '=' :: '=' :: ' ' :: d :: dt)
      = '=' :: '=' :: ' ' :: d :: dt := rfl
  have hop : binary_operator_number ('=' :: '=' :: ' ' :: d :: dt)
      = .ok (' ' :: d :: dt) .equals := rfl
  simp only [binary_non_bool, binaryNonBoolAlt, hint, hskip1, hop, hskip2, hdint]

/-- Parsing an identifier, an inequality token, and a digit literal. -/
theorem c2_bnb_int_ne {x : Char} {xt ds : List Char}
    (hxs : ∀ c ∈ x :: xt, identChar c = true)
    (ht : x :: xt ≠ "true".data) (hf : x :: xt ≠ "false".data)
    (hdne : ds ≠ []) (hdig : ∀ c ∈ ds, digitChar c = true)
    (hle : digitsToNat ds ≤ i64Max) :
    binary_non_bool ((x :: xt) ++ (' ' :: '!' :: '=' :: ' ' :: ds))
      = .ok [] ⟨.identifier (String.mk (x :: xt)), .notEquals,
               .integerLiteral (Int.ofNat (digitsToNat ds))⟩ := by
  have hx : identChar x = true := hxs x (by simp)
  have hident : identifier ((x :: xt) ++ (' ' :: '!' :: '=' :: ' ' :: ds))
      = .ok (' ' :: '!' :: '=' :: ' ' :: ds) (.identifier (String.mk (x :: xt))) :=
    identifier_ok (by simp) hxs rfl ht hf
  have hint : integer ((x :: xt) ++ (' ' :: '!' :: '=' :: ' ' :: ds))
      = .ok (' ' :: '!' :: '=' :: ' ' :: ds) (.identifier (String.mk (x :: xt))) := by
    rw [integer_eq_ident (headFails_digit_of_ident hx), hident]
  obtain ⟨d, dt, rfl⟩ : ∃ d dt, ds = d :: dt := by
    cases ds with
    | nil => exact absurd rfl hdne
    | cons d dt => exact ⟨d, dt, rfl⟩
  have hd : digitChar d = true := hdig d (by simp)
  have hskip2 : skipWS (' ' :: d :: dt) = d :: dt := by
    rw [skipWS_cons_true (show wsChar ' ' = true from rfl),
      skipWS_cons_false (digitChar_not_ws hd)]
  have hdint : integer (d :: dt)
      = .ok [] (.integerLiteral (Int.ofNat (digitsToNat (d :: dt)))) := by
    have h0 := integer_ok_digits (d :: dt) [] hdne hdig rfl hle
    rwa [List.append_nil] at h0
  have hskip1 : skipWS (' ' :: '!' :: '=' :: ' ' :: d :: dt)
      = '!' :: '=' :: ' ' :: d :: dt := rfl
  have hop : binary_operator_number ('!' :: '=' :: ' ' :: d :: dt)
      = .ok (' ' :: d :: dt) .notEquals := rfl
  simp only [binary_non_bool, binaryNonBoolAlt, hint, hskip1, hop, hskip2, hdint]

/-- Parsing an identifier, an equality token, and a quoted string literal. -/
theorem c2_bnb_str_eq {x : Char} {xt s : List Char}
    (hxs : ∀ c ∈ x :: xt, identChar c = true)
    (ht : x :: xt ≠ "true".data) (hf : x :: xt ≠ "false".data)
    (hsne : s ≠ []) (hs : ∀ c ∈ s, c ≠ quoteChar) :
    binary_non_bool ((x :: xt) ++ (' ' :: '=' :: '=' :: ' ' :: quoteChar :: (s ++ quoteChar :: [])))
      = .ok [] ⟨.identifier (String.mk (x :: xt)), .equals, .stringLiteral (String.mk s)⟩ := by
  have hx : identChar x = true := hxs x (by simp)
  have hident : identifier ((x :: xt) ++ (' ' :: '=' :: '=' :: ' ' :: quoteChar :: (s ++ quoteChar :: [])))
      = .ok (' ' :: '=' :: '=' :: ' ' :: quoteChar :: (s ++ quoteChar :: []))
          (.identifier (String.mk (x :: xt))) :=
    identifier_ok (by simp) hxs rfl ht hf
  have hint : integer ((x :: xt) ++ (' ' :: '=' :: '=' :: ' ' :: quoteChar :: (s ++ quoteChar :: [])))
      = .ok (' ' :: '=' :: '=' :: ' ' :: quoteChar :: (s ++ quoteChar :: []))
          (.identifier (String.mk (x :: xt))) := by
    rw [integer_eq_ident (headFails_digit_of_ident hx), hident]
  have hflt : float ((x :: xt) ++ (' ' :: '=' :: '=' :: ' ' :: quoteChar :: (s ++ quoteChar :: [])))
      = .ok (' ' :: '=' :: '=' :: ' ' :: quoteChar :: (s ++ quoteChar :: []))
          (.identifier (String.mk (x :: xt))) := by
    rw [float_eq_ident (headFails_digit_of_ident hx), hident]
  have hstr : string ((x :: xt) ++ (' ' :: '=' :: '=' :: ' ' :: quoteChar :: (s ++ quoteChar :: [])))
      = .ok (' ' :: '=' :: '=' :: ' ' :: quoteChar :: (s ++ quoteChar :: []))
          (.identifier (String.mk (x :: xt))) := by
    rw [string_eq_ident (headFails_quote_of_ident hx), hident]
  have hskip1 : skipWS (' ' :: '=' :: '=' :: ' ' :: quoteChar :: (s ++ quoteChar :: []))
      = '=' :: '=' :: ' ' :: quoteChar :: (s ++ quoteChar :: []) := rfl
  have hopN : binary_operator_number ('=' :: '=' :: ' ' :: quoteChar :: (s ++ quoteChar :: []))
      = .ok (' ' :: quoteChar :: (s ++ quoteChar :: [])) .equals := rfl
  have hopS : binary_operator_string ('=' :: '=' :: ' ' :: quoteChar :: (s ++ quoteChar :: []))
      = .ok (' ' :: quoteChar :: (s ++ quoteChar :: [])) .equals := rfl
  have hskip2 : skipWS (' ' :: quoteChar :: (s ++ quoteChar :: []))
      = quoteChar :: (s ++ quoteChar :: []) := rfl
  have hqident : identifier (quoteChar :: (s ++ quoteChar :: [])) = .fail :=
    identifier_fail_head rfl
  have hqhead : headFails digitChar (quoteChar :: (s ++ quoteChar :: [])) = true := rfl
  have hqint : integer (quoteChar :: (s ++ quoteChar :: [])) = .fail := by
    rw [integer_eq_ident hqhead, hqident]
  have hqflt : float (quoteChar :: (s ++ quoteChar :: [])) = .fail := by
    rw [float_eq_ident hqhead, hqident]
  have hqstr : string (quoteChar :: (s ++ quoteChar :: []))
      = .ok [] (.stringLiteral (String.mk s)) := string_ok_quoted hsne hs
  simp only [binary_non_bool, binaryNonBoolAlt, hint, hflt, hstr, hskip1, hopN, hopS,
    hskip2, hqint, hqflt, hqstr]

/-- Parsing an identifier, an inequality token, and a quoted string
literal. -/
theorem c2_bnb_str_ne {x : Char} {xt s : List Char}
    (hxs : ∀ c ∈ x :: xt, identChar c = true)
    (ht : x :: xt ≠ "true".data) (hf : x :: xt ≠ "false".data)
    (hsne : s ≠ []) (hs : ∀ c ∈ s, c ≠ quoteChar) :
    binary_non_bool ((x :: xt) ++ (' ' :: '!' :: '=' :: ' ' :: quoteChar :: (s ++ quoteChar :: [])))
      = .ok [] ⟨.identifier (String.mk (x :: xt)), .notEquals, .stringLiteral (String.mk s)⟩ := by
  have hx : identChar x = true := hxs x (by simp)
  have hident : identifier ((x :: xt) ++ (' ' :: '!' :: '=' :: ' ' :: quoteChar :: (s ++ quoteChar :: [])))
      = .ok (' ' :: '!' :: '=' :: ' ' :: quoteChar :: (s ++ quoteChar :: []))
          (.identifier (String.mk (x :: xt))) :=
    identifier_ok (by simp) hxs rfl ht hf
  have hint : integer ((x :: xt) ++ (' ' :: '!' :: '=' :: ' ' :: quoteChar :: (s ++ quoteChar :: [])))
      = .ok (' ' :: '!' :: '=' :: ' ' :: quoteChar :: (s ++ quoteChar :: []))
          (.identifier (String.mk (x :: xt))) := by
    rw [integer_eq_ident (headFails_digit_of_ident hx), hident]
  have hflt : float ((x :: xt) ++ (' ' :: '!' :: '=' :: ' ' :: quoteChar :: (s ++ quoteChar :: [])))
      = .ok (' ' :: '!' :: '=' :: ' ' :: quoteChar :: (s ++ quoteChar :: []))
          (.identifier (String.mk (x :: xt))) := by
    rw [float_eq_ident (headFails_digit_of_ident hx), hident]
  have hstr : string ((x :: xt) ++ (' ' :: '!' :: '=' :: ' ' :: quoteChar :: (s ++ quoteChar :: [])))
      = .ok (' ' :: '!' :: '=' :: ' ' :: quoteChar :: (s ++ quoteChar :: []))
          (.identifier (String.mk (x :: xt))) := by
    rw [string_eq_ident (headFails_quote_of_ident hx), hident]
  have hskip1 : skipWS (' ' :: '!' :: '=' :: ' ' :: quoteChar :: (s ++ quoteChar :: []))
      = '!' :: '=' :: ' ' :: quoteChar :: (s ++ quoteChar :: []) := rfl
  have hopN : binary_operator_number ('!' :: '=' :: ' ' :: quoteChar :: (s ++ quoteChar :: []))
      = .ok (' ' :: quoteChar :: (s ++ quoteChar :: [])) .notEquals := rfl
  have hopS : binary_operator_string ('!' :: '=' :: ' ' :: quoteChar :: (s ++ quoteChar :: []))
      = .ok (' ' :: quoteChar :: (s ++ quoteChar :: [])) .notEquals := rfl
  have hskip2 : skipWS (' ' :: quoteChar :: (s ++ quoteChar :: []))
      = quoteChar :: (s ++ quoteChar :: []) := rfl
  have hqident : identifier (quoteChar :: (s ++ quoteChar :: [])) = .fail :=
    identifier_fail_head rfl
  have hqhead : headFails digitChar (quoteChar :: (s ++ quoteChar :: [])) = true := rfl
  have hqint : integer (quoteChar :: (s ++ quoteChar :: [])) = .fail := by
    rw [integer_eq_ident hqhead, hqident]
  have hqflt : float (quoteChar :: (s ++ quoteChar :: [])) = .fail := by
    rw [float_eq_ident hqhead, hqident]
  have hqstr : string (quoteChar :: (s ++ quoteChar :: []))
      = .ok [] (.stringLiteral (String.mk s)) := string_ok_quoted hsne hs
  simp only [binary_non_bool, binaryNonBoolAlt, hint, hflt, hstr, hskip1, hopN, hopS,
    hskip2, hqint, hqflt, hqstr]

/-! ## Boolean expression parser wrappers -/

/-- A successful comparison parse is the first alternative of
boolean_value. -/
theorem boolean_value_of_bnb {fuel : Nat} {input rest : List Char}
    {nbe : NonBooleanExpression} (h : binary_non_bool input = .ok rest nbe) :
    boolean_value (fuel + 1) input = .ok rest (.nonBoolean nbe) := by
  simp only [boolean_value, h]

/-- boolean_and fails when the parsed value is not followed by the and
token. -/
theorem boolean_and_fail_of_value {fuel : Nat} {input r : List Char}
    {t : BooleanExpression} (hv : boolean_value fuel input = .ok r t)
    (hop : binary_and_operator (skipWS r) = .fail) :
    boolean_and (fuel + 1) input = .fail := by
  simp only [boolean_and, hv, hop]

/-- boolean_or fails when the parsed value is not followed by the or
token. -/
theorem boolean_or_fail_of_value {fuel : Nat} {input r : List Char}
    {t : BooleanExpression} (hv : boolean_value fuel input = .ok r t)
    (hop : binary_or_operator (skipWS r) = .fail) :
    boolean_or (fuel + 1) input = .fail := by
  simp only [boolean_or, hv, hop]

/-- boolean_expression reduces to boolean_value when both chain parsers
fail. -/
theorem boolean_expression_via_value {fuel : Nat} {input r : List Char}
    {t : BooleanExpression} (hand : boolean_and fuel input = .fail)
    (hor : boolean_or fuel input = .fail)
    (hval : boolean_value fuel input = .ok r t) :
    boolean_expression (fuel + 1) input = .ok r t := by
  simp only [boolean_expression, hand, hor, hval]

/-- A comparison consuming the whole input parses as a boolean expression at
every sufficient fuel. -/
theorem boolean_expression_of_bnb {fuel : Nat} {input : List Char}
    {nbe : NonBooleanExpression} (h : binary_non_bool input = .ok [] nbe) :
    boolean_expression (fuel + 3) input = .ok [] (.nonBoolean nbe) := by
  have hand : boolean_and (fuel + 2) input = .fail :=
    boolean_and_fail_of_value (boolean_value_of_bnb h) rfl
  have hor : boolean_or (fuel + 2) input = .fail :=
    boolean_or_fail_of_value (boolean_value_of_bnb h) rfl
  exact boolean_expression_via_value hand hor (boolean_value_of_bnb h)

/-- The whole input parse of a comparison consuming all characters. -/
theorem parse_whole_of_bnb (input : String) {nbe : NonBooleanExpression}
    (h : binary_non_bool input.data = .ok [] nbe) :
    parse_whole_boolean_expression input = .ok (.nonBoolean nbe) := by
  unfold parse_whole_boolean_expression
  have ht : topFuel input.data = (3 * input.data.length + 1) + 3 := by
    unfold topFuel; omega
  rw [ht, boolean_expression_of_bnb h]

/-! ## Claim C2 -/

/-- C2 counterexample: an identifier bound to the float five halves compared
with the float literal spelling of that value does not evaluate to true; the
integer alternative of the comparison parser consumes the integral part of
the literal, the leftover fraction is trailing input, and the whole
evaluation fails before the context is consulted. -/
theorem c2_counterexample :
    evaluate noRegex "x == 2.5"
      (fun n => if n = "x" then some (.float ((5 : Rat) / 2)) else none)
      = .err (.trailingInput ".5") ∧
    evaluate noRegex "x == 2.5"
      (fun n => if n = "x" then some (.float ((5 : Rat) / 2)) else none)
      ≠ .ok true := by
  exact ⟨rfl, by decide⟩

/-- C2 amended: the round trip holds for the string and integer kinds.  For
every context, every identifier spelling (nonempty, made of letters, dots
and underscores, and not a boolean keyword) bound to a string value with a
literal spelling (nonempty, quote free) or to a nonnegative integer value
given by a digit spelling within the i64 range, comparing the identifier
with the literal spelling under equals evaluates to true and under
not-equals to false.  The float kind of the original claim is removed: its
literal spelling fails to parse next to an identifier, as the counterexample
shows. -/
theorem c2_roundtrip_string_integer (rx : RegexEngine) (ctx : Context)
    (x : Char) (xt : List Char)
    (hxs : ∀ c ∈ x :: xt, identChar c = true)
    (ht : x :: xt ≠ "true".data) (hf : x :: xt ≠ "false".data) :
    (∀ s : List Char, s ≠ [] → (∀ c ∈ s, c ≠ quoteChar) →
      ctx (String.mk (x :: xt)) = some (.string (String.mk s)) →
      evaluate rx (String.mk ((x :: xt)
          ++ (' ' :: '=' :: '=' :: ' ' :: quoteChar :: (s ++ quoteChar :: [])))) ctx
        = .ok true ∧
      evaluate rx (String.mk ((x :: xt)
          ++ (' ' :: '!' :: '=' :: ' ' :: quoteChar :: (s ++ quoteChar :: [])))) ctx
        = .ok false) ∧
    (∀ ds : List Char, ds ≠ [] → (∀ c ∈ ds, digitChar c = true) →
      digitsToNat ds ≤ i64Max →
      ctx (String.mk (x :: xt)) = some (.integer (Int.ofNat (digitsToNat ds))) →
      evaluate rx (String.mk ((x :: xt) ++ (' ' :: '=' :: '=' :: ' ' :: ds))) ctx
        = .ok true ∧
      evaluate rx (String.mk ((x :: xt) ++ (' ' :: '!' :: '=' :: ' ' :: ds))) ctx
        = .ok false) := by
  constructor
  · intro s hsne hs hctx
    constructor
    · have hp := parse_whole_of_bnb
        (String.mk ((x :: xt)
          ++ (' ' :: '=' :: '=' :: ' ' :: quoteChar :: (s ++ quoteChar :: []))))
        (c2_bnb_str_eq hxs ht hf hsne hs)
      unfold evaluate
      rw [hp]
      simp [BooleanExpression.use_context, NonBooleanExpression.use_context,
        Value.use_context, identifierUseContext, hctx, valueOfContextValue,
        BooleanExpression.evaluate, NonBooleanExpression.evaluate,
        NonBooleanExpression.eval_string]
    · have hp := parse_whole_of_bnb
        (String.mk ((x :: xt)
          ++ (' ' :: '!' :: '=' :: ' ' :: quoteChar :: (s ++ quoteChar :: []))))
        (c2_bnb_str_ne hxs ht hf hsne hs)
      unfold evaluate
      rw [hp]
      simp [BooleanExpression.use_context, NonBooleanExpression.use_context,
        Value.use_context, identifierUseContext, hctx, valueOfContextValue,
        BooleanExpression.evaluate, NonBooleanExpression.evaluate,
        NonBooleanExpression.eval_string]
  · intro ds hdne hdig hle hctx
    constructor
    · have hp := parse_whole_of_bnb
        (String.mk ((x :: xt) ++ (' ' :: '=' :: '=' :: ' ' :: ds)))
        (c2_bnb_int_eq hxs ht hf hdne hdig hle)
      unfold evaluate
      rw [hp]
      simp [BooleanExpression.use_context, NonBooleanExpression.use_context,
        Value.use_context, identifierUseContext, hctx, valueOfContextValue,
        BooleanExpression.evaluate, NonBooleanExpression.evaluate,
        NonBooleanExpression.eval_integer]
    · have hp := parse_whole_of_bnb
        (String.mk ((x :: xt) ++ (' ' :: '!' :: '=' :: ' ' :: ds)))
        (c2_bnb_int_ne hxs ht hf hdne hdig hle)
      unfold evaluate
      rw [hp]
      simp [BooleanExpression.use_context, NonBooleanExpression.use_context,
        Value.use_context, identifierUseContext, hctx, valueOfContextValue,
        BooleanExpression.evaluate, NonBooleanExpression.evaluate,
        NonBooleanExpression.eval_integer]

/-- Context binding x to the integer five, for the C2 witness. -/
def c2CtxInt : Context := fun n => if n = "x" then some (.integer 5) else none

/-- Context binding x to the string f, for the C2 witness. -/
def c2CtxStr : Context :=
  fun n => if n = "x" then some (.string (String.mk ('f' :: []))) else none

/-- C2 witness: concrete round trips for the integer and string kinds. -/
theorem c2_witness :
    evaluate noRegex (String.mk (('x' :: []) ++ (' ' :: '=' :: '=' :: ' ' :: '5' :: [])))
      c2CtxInt = .ok true ∧
    evaluate noRegex (String.mk (('x' :: []) ++ (' ' :: '!' :: '=' :: ' ' :: '5' :: [])))
      c2CtxInt = .ok false ∧
    evaluate noRegex (String.mk (('x' :: [])
      ++ (' ' :: '=' :: '=' :: ' ' :: quoteChar :: (('f' :: []) ++ quoteChar :: []))))
      c2CtxStr = .ok true ∧
    evaluate noRegex (String.mk (('x' :: [])
      ++ (' ' :: '!' :: '=' :: ' ' :: quoteChar :: (('f' :: []) ++ quoteChar :: []))))
      c2CtxStr = .ok false :=
  ⟨((c2_roundtrip_string_integer noRegex c2CtxInt 'x' [] (by decide) (by decide)
      (by decide)).2 ('5' :: []) (by decide) (by decide) (by decide) (by decide)).1,
   ((c2_roundtrip_string_integer noRegex c2CtxInt 'x' [] (by decide) (by decide)
      (by decide)).2 ('5' :: []) (by decide) (by decide) (by decide) (by decide)).2,
   ((c2_roundtrip_string_integer noRegex c2CtxStr 'x' [] (by decide) (by decide)
      (by decide)).1 ('f' :: []) (by decide) (by decide) (by decide)).1,
   ((c2_roundtrip_string_integer noRegex c2CtxStr 'x' [] (by decide) (by decide)
      (by decide)).1 ('f' :: []) (by decide) (by decide) (by decide)).2⟩

/-! ## Claim C8: literal boolean formulas

The family of expression texts of the claim: boolean literals, negation,
homogeneous and or or chains, parentheses, and optional whitespace in the
positions where the grammar discards it (around the infix tokens, after the
negation token, and just inside parentheses).  Each node carries its
whitespace explicitly; wf states that the carried lists hold only
whitespace characters. -/

/-- The two chain operators. -/
inductive COp : Type where
  | andC
  | orC

/-- The token of a chain operator. -/
def copTok : COp → List Char
  | .andC => '&' :: '&' :: []
  | .orC => '|' :: '|' :: []

/-- The BinaryOperator of a chain operator. -/
def copOp : COp → BinaryOperator
  | .andC => .and
  | .orC => .or

mutual

/-- A value of the literal formula grammar: literal, negation, or
parenthesized expression, with explicit whitespace. -/
inductive WVal : Type where
  | lit (b : Bool)
  | wnot (ws : List Char) (v : WVal)
  | paren (ws₁ ws₂ : List Char) (e : WExpr)

/-- The tail of a homogeneous chain: at least one further operand, each
preceded by an operator token with whitespace on both sides. -/
inductive WChain : Type where
  | last (ws₁ ws₂ : List Char) (v : WVal)
  | cons (ws₁ ws₂ : List Char) (v : WVal) (rest : WChain)

/-- A literal formula: a single value or a homogeneous chain of at least
two values. -/
inductive WExpr : Type where
  | single (v : WVal)
  | chain (c : COp) (head : WVal) (tail : WChain)

end

mutual

/-- The expression text of a value. -/
def printV : WVal → List Char
  | .lit true => "true".data
  | .lit false => "false".data
  | .wnot ws v => '!' :: (ws ++ printV v)
  | .paren ws₁ ws₂ e => '(' :: (ws₁ ++ (printE e ++ (ws₂ ++ ')' :: [])))

/-- The expression text of a chain tail. -/
def printC (c : COp) : WChain → List Char
  | .last ws₁ ws₂ v => ws₁ ++ (copTok c ++ (ws₂ ++ printV v))
  | .cons ws₁ ws₂ v rest => ws₁ ++ (copTok c ++ (ws₂ ++ (printV v ++ printC c rest)))

/-- The expression text of a formula. -/
def printE : WExpr → List Char
  | .single v => printV v
  | .chain c h t => printV h ++ printC c t

end

mutual

/-- The tree the parser builds for a value. -/
def astV : WVal → BooleanExpression
  | .lit b => .boolean b
  | .wnot _ v => .unary .not (astV v)
  | .paren _ _ e => astE e

/-- The tree the parser builds for a chain tail (right leaning). -/
def astC (c : COp) : WChain → BooleanExpression
  | .last _ _ v => astV v
  | .cons _ _ v rest => .binary (astV v) (copOp c) (astC c rest)

/-- The tree the parser builds for a formula. -/
def astE : WExpr → BooleanExpression
  | .single v => astV v
  | .chain c h t => .binary (astV h) (copOp c) (astC c t)

end

/-- Boolean algebra combination of a chain operator. -/
def copFn : COp → Bool → Bool → Bool
  | .andC => fun a b => a && b
  | .orC => fun a b => a || b

mutual

/-- Boolean algebra denotation of a value. -/
def denV : WVal → Bool
  | .lit b => b
  | .wnot _ v => !denV v
  | .paren _ _ e => denE e

/-- Boolean algebra denotation of a chain tail. -/
def denC (c : COp) : WChain → Bool
  | .last _ _ v => denV v
  | .cons _ _ v rest => copFn c (denV v) (denC c rest)

/-- Boolean algebra denotation of a formula. -/
def denE : WExpr → Bool
  | .single v => denV v
  | .chain c h t => copFn c (denV h) (denC c t)

end

/-- All characters of the list are whitespace. -/
def allWS (l : List Char) : Bool := l.all wsChar

mutual

/-- Well-formedness of a value: every whitespace slot holds only whitespace
characters. -/
def wfV : WVal → Bool
  | .lit _ => true
  | .wnot ws v => allWS ws && wfV v
  | .paren ws₁ ws₂ e => allWS ws₁ && allWS ws₂ && wfE e

/-- Well-formedness of a chain tail. -/
def wfC : WChain → Bool
  | .last ws₁ ws₂ v => allWS ws₁ && allWS ws₂ && wfV v
  | .cons ws₁ ws₂ v rest => allWS ws₁ && allWS ws₂ && wfV v && wfC rest

/-- Well-formedness of a formula. -/
def wfE : WExpr → Bool
  | .single v => wfV v
  | .chain _ h t => wfV h && wfC t

end

mutual

/-- Structural size of a value, a lower bound for the parsing fuel. -/
def sizeV : WVal → Nat
  | .lit _ => 1
  | .wnot _ v => sizeV v + 1
  | .paren _ _ e => sizeE e + 1

/-- Structural size of a chain tail. -/
def sizeC : WChain → Nat
  | .last _ _ v => sizeV v + 1
  | .cons _ _ v rest => sizeV v + sizeC rest + 1

/-- Structural size of a formula. -/
def sizeE : WExpr → Nat
  | .single v => sizeV v + 1
  | .chain _ h t => sizeV h + sizeC t + 1

end

mutual

/-- The size of a value is at most the length of its text. -/
theorem sizeV_le_len (v : WVal) : sizeV v ≤ (printV v).length := by
  cases v with
  | lit b => cases b <;> simp [sizeV, printV]
  | wnot ws v =>
      have := sizeV_le_len v
      simp only [sizeV, printV, List.length_cons, List.length_append]
      omega
  | paren ws₁ ws₂ e =>
      have := sizeE_le_len e
      simp only [sizeV, printV, List.length_cons, List.length_append]
      omega
termination_by sizeOf v

/-- The size of a chain tail is at most the length of its text. -/
theorem sizeC_le_len (c : COp) (t : WChain) : sizeC t ≤ (printC c t).length := by
  cases t with
  | last ws₁ ws₂ v =>
      have := sizeV_le_len v
      cases c <;> simp only [sizeC, printC, copTok, List.length_append, List.length_cons] <;>
        omega
  | cons ws₁ ws₂ v rest =>
      have h₁ := sizeV_le_len v
      have h₂ := sizeC_le_len c rest
      cases c <;> simp only [sizeC, printC, copTok, List.length_append, List.length_cons] <;>
        omega
termination_by sizeOf t

/-- The size of a formula is at most the length of its text plus one. -/
theorem sizeE_le_len (e : WExpr) : sizeE e ≤ (printE e).length + 1 := by
  cases e with
  | single v =>
      have := sizeV_le_len v
      simp only [sizeE, printE]
      omega
  | chain c h t =>
      have h₁ := sizeV_le_len h
      have h₂ := sizeC_le_len c t
      simp only [sizeE, printE, List.length_append]
      omega
termination_by sizeOf e

end

mutual

/-- Context binding is the identity on the tree of a value. -/
theorem astV_use_context (v : WVal) (ctx : Context) :
    (astV v).use_context ctx = .ok (astV v) := by
  cases v with
  | lit b => rfl
  | wnot ws v => simp only [astV, BooleanExpression.use_context, astV_use_context v ctx]
  | paren ws₁ ws₂ e => simp only [astV, astE_use_context e ctx]
termination_by sizeOf v

/-- Context binding is the identity on the tree of a chain tail. -/
theorem astC_use_context (c : COp) (t : WChain) (ctx : Context) :
    (astC c t).use_context ctx = .ok (astC c t) := by
  cases t with
  | last ws₁ ws₂ v => simp only [astC, astV_use_context v ctx]
  | cons ws₁ ws₂ v rest =>
      simp only [astC, BooleanExpression.use_context, astV_use_context v ctx,
        astC_use_context c rest ctx]
termination_by sizeOf t

/-- Context binding is the identity on the tree of a formula. -/
theorem astE_use_context (e : WExpr) (ctx : Context) :
    (astE e).use_context ctx = .ok (astE e) := by
  cases e with
  | single v => simp only [astE, astV_use_context v ctx]
  | chain c h t =>
      simp only [astE, BooleanExpression.use_context, astV_use_context h ctx,
        astC_use_context c t ctx]
termination_by sizeOf e

end

mutual

/-- Evaluating the tree of a value yields its boolean algebra denotation. -/
theorem astV_evaluate (rx : RegexEngine) (v : WVal) :
    (astV v).evaluate rx = .ok (denV v) := by
  cases v with
  | lit b => rfl
  | wnot ws v =>
      simp only [astV, BooleanExpression.evaluate, astV_evaluate rx v, denV]
  | paren ws₁ ws₂ e => simp only [astV, astE_evaluate rx e, denV]
termination_by sizeOf v

/-- Evaluating the tree of a chain tail yields its denotation. -/
theorem astC_evaluate (rx : RegexEngine) (c : COp) (t : WChain) :
    (astC c t).evaluate rx = .ok (denC c t) := by
  cases t with
  | last ws₁ ws₂ v => simp only [astC, astV_evaluate rx v, denC]
  | cons ws₁ ws₂ v rest =>
      have hv := astV_evaluate rx v
      have hr := astC_evaluate rx c rest
      cases c with
      | andC =>
          simp only [astC, copOp, BooleanExpression.evaluate, hv, hr, denC, copFn]
          cases denV v <;> simp [hr]
      | orC =>
          simp only [astC, copOp, BooleanExpression.evaluate, hv, hr, denC, copFn]
          cases denV v <;> simp [hr]
termination_by sizeOf t

/-- Evaluating the tree of a formula yields its denotation. -/
theorem astE_evaluate (rx : RegexEngine) (e : WExpr) :
    (astE e).evaluate rx = .ok (denE e) := by
  cases e with
  | single v => simp only [astE, astV_evaluate rx v, denE]
  | chain c h t =>
      have hv := astV_evaluate rx h
      have ht := astC_evaluate rx c t
      cases c with
      | andC =>
          simp only [astE, copOp, BooleanExpression.evaluate, hv, ht, denE, copFn]
          cases denV h <;> simp [ht]
      | orC =>
          simp only [astE, copOp, BooleanExpression.evaluate, hv, ht, denE, copFn]
          cases denV h <;> simp [ht]
termination_by sizeOf e

end

/-! ## C8 parse helper lemmas -/

/-- Characters allowed to follow a printed value: whitespace, a chain
token character, or a closing parenthesis. -/
def valueFollow : List Char → Bool
  | [] => true
  | c :: _ => wsChar c || c = '&' || c = '|' || c = ')'

/-- What may follow a printed formula: nothing, or whitespace and a
closing parenthesis. -/
def exprFollow (rest : List Char) : Prop :=
  rest = [] ∨ ∃ w out, (∀ c ∈ w, wsChar c = true) ∧ rest = w ++ ')' :: out

theorem wsChar_not_ident {c : Char} (h : wsChar c = true) : identChar c = false := by
  simp only [wsChar, Bool.or_eq_true, decide_eq_true_eq] at h
  rcases h with ((h | h) | h) | h <;> subst h <;> rfl

theorem wsChar_not_digit {c : Char} (h : wsChar c = true) : digitChar c = false := by
  simp only [wsChar, Bool.or_eq_true, decide_eq_true_eq] at h
  rcases h with ((h | h) | h) | h <;> subst h <;> rfl

theorem wsChar_ne_quote {c : Char} (h : wsChar c = true) : (c == quoteChar) = false := by
  simp only [wsChar, Bool.or_eq_true, decide_eq_true_eq] at h
  rcases h with ((h | h) | h) | h <;> subst h <;> rfl

theorem valueFollow_ident {rest : List Char} (h : valueFollow rest = true) :
    headFails identChar rest = true := by
  cases rest with
  | nil => rfl
  | cons c t =>
      simp only [valueFollow, Bool.or_eq_true, decide_eq_true_eq] at h
      rcases h with ((h | h) | h) | h
      · simp [headFails, wsChar_not_ident h]
      · subst h; rfl
      · subst h; rfl
      · subst h; rfl

theorem valueFollow_digit {rest : List Char} (h : valueFollow rest = true) :
    headFails digitChar rest = true := by
  cases rest with
  | nil => rfl
  | cons c t =>
      simp only [valueFollow, Bool.or_eq_true, decide_eq_true_eq] at h
      rcases h with ((h | h) | h) | h
      · simp [headFails, wsChar_not_digit h]
      · subst h; rfl
      · subst h; rfl
      · subst h; rfl

theorem valueFollow_quote {rest : List Char} (h : valueFollow rest = true) :
    headFails (fun d => d == quoteChar) rest = true := by
  cases rest with
  | nil => rfl
  | cons c t =>
      simp only [valueFollow, Bool.or_eq_true, decide_eq_true_eq] at h
      rcases h with ((h | h) | h) | h
      · simp only [headFails, wsChar_ne_quote h, Bool.not_false]
      · subst h; rfl
      · subst h; rfl
      · subst h; rfl

theorem exprFollow_valueFollow {rest : List Char} (h : exprFollow rest) :
    valueFollow rest = true := by
  rcases h with rfl | ⟨w, out, hw, rfl⟩
  · rfl
  · cases w with
    | nil => rfl
    | cons c t => simp [valueFollow, hw c (by simp)]

theorem exprFollow_skipWS {rest : List Char} (h : exprFollow rest) :
    skipWS rest = [] ∨ ∃ out, skipWS rest = ')' :: out := by
  rcases h with rfl | ⟨w, out, hw, rfl⟩
  · exact Or.inl rfl
  · exact Or.inr ⟨out, dropWhile_append_all hw rfl⟩

/-- Both chain operator parsers fail where a formula may end. -/
theorem chain_ops_fail {rest : List Char} (h : exprFollow rest) :
    binary_and_operator (skipWS rest) = .fail ∧
    binary_or_operator (skipWS rest) = .fail := by
  rcases exprFollow_skipWS h with hs | ⟨out, hs⟩ <;> rw [hs] <;> exact ⟨rfl, rfl⟩

theorem ptag_cons_ne {c₁ c₂ : Char} {t₁ t₂ : List Char} (h : c₁ ≠ c₂) :
    ptag (c₁ :: t₁) (c₂ :: t₂) = .fail := by
  simp [ptag, List.isPrefixOf, h]

/-- The identifier parser rejects the run true. -/
theorem identifier_true_fail {rest : List Char} (h : headFails identChar rest = true) :
    identifier ("true".data ++ rest) = .fail := by
  unfold identifier
  rw [takeWhile1_append (by decide) (by decide) h]
  simp

/-- The identifier parser rejects the run false. -/
theorem identifier_false_fail {rest : List Char} (h : headFails identChar rest = true) :
    identifier ("false".data ++ rest) = .fail := by
  unfold identifier
  rw [takeWhile1_append (by decide) (by decide) h]
  simp

/-- binary_non_bool fails whenever its three operand parsers have no
digit, no quote, and no accepted identifier at the current position. -/
theorem bnb_fail_of_ident_fail {input : List Char}
    (h₁ : headFails digitChar input = true)
    (h₃ : headFails (fun d => d == quoteChar) input = true)
    (h₂ : identifier input = .fail) : binary_non_bool input = .fail := by
  simp only [binary_non_bool, binaryNonBoolAlt, integer_eq_ident h₁, float_eq_ident h₁,
    string_eq_ident h₃, h₂]

/-- The boolean literal parser accepts true. -/
theorem boolean_true_ok (rest : List Char) :
    boolean ("true".data ++ rest) = .ok rest (.boolean true) := by
  simp only [boolean, ptag_self_append]

/-- The boolean literal parser accepts false. -/
theorem boolean_false_ok (rest : List Char) :
    boolean ("false".data ++ rest) = .ok rest (.boolean false) := by
  unfold boolean
  rw [show ("false".data ++ rest) = 'f' :: ("alse".data ++ rest) from rfl]
  rw [ptag_cons_ne (show ('t' : Char) ≠ 'f' by decide)]
  rw [show ('f' :: ("alse".data ++ rest)) = "false".data ++ rest from rfl,
    ptag_self_append]

/-- The head of a printed value is never whitespace. -/
theorem headFails_ws_printV (v : WVal) (rest : List Char) :
    headFails wsChar (printV v ++ rest) = true := by
  cases v with
  | lit b => cases b <;> rfl
  | wnot ws v => rfl
  | paren ws₁ ws₂ e => rfl

/-- The head of a printed formula is never whitespace. -/
theorem headFails_ws_printE (e : WExpr) (rest : List Char) :
    headFails wsChar (printE e ++ rest) = true := by
  cases e with
  | single v => exact headFails_ws_printV v rest
  | chain c h t =>
      rw [show printE (.chain c h t) ++ rest = printV h ++ (printC c t ++ rest) by
        simp [printE, List.append_assoc]]
      exact headFails_ws_printV h (printC c t ++ rest)

/-- Discarding whitespace before a printed value stops at the value. -/
theorem skipWS_ws_printV {ws : List Char} (v : WVal) (rest : List Char)
    (hws : ∀ c ∈ ws, wsChar c = true) :
    skipWS (ws ++ (printV v ++ rest)) = printV v ++ rest :=
  dropWhile_append_all hws (headFails_ws_printV v rest)

/-- Discarding whitespace before a printed formula stops at the formula. -/
theorem skipWS_ws_printE {ws : List Char} (e : WExpr) (rest : List Char)
    (hws : ∀ c ∈ ws, wsChar c = true) :
    skipWS (ws ++ (printE e ++ rest)) = printE e ++ rest :=
  dropWhile_append_all hws (headFails_ws_printE e rest)

/-- The text after the leading whitespace of a printed chain tail. -/
def tailAfterTok (c : COp) : WChain → List Char
  | .last _ ws₂ v => ws₂ ++ printV v
  | .cons _ ws₂ v rest => ws₂ ++ (printV v ++ printC c rest)

/-- Discarding whitespace at a printed chain tail stops at the operator
token. -/
theorem skipWS_printC (c : COp) (t : WChain) (rest : List Char)
    (hwft : wfC t = true) :
    skipWS (printC c t ++ rest) = copTok c ++ (tailAfterTok c t ++ rest) := by
  cases t with
  | last ws₁ ws₂ v =>
      simp only [wfC, Bool.and_eq_true, allWS, List.all_eq_true] at hwft
      rw [show printC c (.last ws₁ ws₂ v) ++ rest
            = ws₁ ++ ((copTok c ++ (tailAfterTok c (.last ws₁ ws₂ v))) ++ rest) by
          simp [printC, tailAfterTok, List.append_assoc]]
      rw [show (copTok c ++ tailAfterTok c (.last ws₁ ws₂ v)) ++ rest
            = copTok c ++ (tailAfterTok c (.last ws₁ ws₂ v) ++ rest) from
          List.append_assoc _ _ _]
      exact dropWhile_append_all (fun c hc => hwft.1.1 c hc) (by cases c <;> rfl)
  | cons ws₁ ws₂ v r =>
      simp only [wfC, Bool.and_eq_true, allWS, List.all_eq_true] at hwft
      rw [show printC c (.cons ws₁ ws₂ v r) ++ rest
            = ws₁ ++ ((copTok c ++ (tailAfterTok c (.cons ws₁ ws₂ v r))) ++ rest) by
          simp [printC, tailAfterTok, List.append_assoc]]
      rw [show (copTok c ++ tailAfterTok c (.cons ws₁ ws₂ v r)) ++ rest
            = copTok c ++ (tailAfterTok c (.cons ws₁ ws₂ v r) ++ rest) from
          List.append_assoc _ _ _]
      exact dropWhile_append_all (fun c hc => hwft.1.1.1 c hc) (by cases c <;> rfl)

/-- A printed chain tail may follow a printed value. -/
theorem valueFollow_printC {c : COp} {t : WChain} (rest : List Char)
    (hwft : wfC t = true) : valueFollow (printC c t ++ rest) = true := by
  cases t with
  | last ws₁ ws₂ v =>
      simp only [wfC, Bool.and_eq_true, allWS, List.all_eq_true] at hwft
      cases hw : ws₁ with
      | nil =>
          subst hw
          cases c <;> rfl
      | cons w wt =>
          have : wsChar w = true := hwft.1.1 w (by rw [hw]; simp)
          subst hw
          simp [printC, valueFollow, this]
  | cons ws₁ ws₂ v r =>
      simp only [wfC, Bool.and_eq_true, allWS, List.all_eq_true] at hwft
      cases hw : ws₁ with
      | nil =>
          subst hw
          cases c <;> rfl
      | cons w wt =>
          have : wsChar w = true := hwft.1.1.1 w (by rw [hw]; simp)
          subst hw
          simp [printC, valueFollow, this]

/-! ## Single step composition lemmas for the recursive descent -/

theorem sizeV_pos (v : WVal) : 1 ≤ sizeV v := by
  cases v <;> simp only [sizeV] <;> omega

theorem sizeC_pos (t : WChain) : 1 ≤ sizeC t := by
  cases t <;> simp only [sizeC] <;> omega

theorem sizeE_pos (e : WExpr) : 1 ≤ sizeE e := by
  cases e <;> simp only [sizeE] <;> omega

/-- boolean_value by the parenthesized alternative. -/
theorem boolean_value_paren {fuel : Nat} {input r₁ m₁ r₂ m₂ r₃ : List Char}
    {e : BooleanExpression}
    (hbnb : binary_non_bool input = .fail)
    (hp : pchar '(' input = .ok r₁ '(')
    (hsk₁ : skipWS r₁ = m₁)
    (hexpr : boolean_expression fuel m₁ = .ok r₂ e)
    (hsk₂ : skipWS r₂ = m₂)
    (hcl : pchar ')' m₂ = .ok r₃ ')') :
    boolean_value (fuel + 1) input = .ok r₃ e := by
  simp only [boolean_value, hbnb, hp, hsk₁, hexpr, hsk₂, hcl]

/-- boolean_value by the literal alternative. -/
theorem boolean_value_lit {fuel : Nat} {input rest : List Char} {b : Bool}
    (hbnb : binary_non_bool input = .fail)
    (hp : pchar '(' input = .fail)
    (hb : boolean input = .ok rest (.boolean b)) :
    boolean_value (fuel + 1) input = .ok rest (.boolean b) := by
  simp only [boolean_value, hbnb, hp, hb]

/-- boolean_value by the unary alternative. -/
theorem boolean_value_unary {fuel : Nat} {input r₁ m₁ rest : List Char}
    {v : BooleanExpression}
    (hbnb : binary_non_bool input = .fail)
    (hp : pchar '(' input = .fail)
    (hb : boolean input = .fail)
    (hu : unary_operator_primary input = .ok r₁ .not)
    (hsk : skipWS r₁ = m₁)
    (hv : boolean_value fuel m₁ = .ok rest v) :
    boolean_value (fuel + 1) input = .ok rest (.unary .not v) := by
  simp only [boolean_value, hbnb, hp, hb, hu, hsk, hv]

/-- boolean_and by its first alternative (a longer chain follows). -/
theorem boolean_and_ok_alt1 {fuel : Nat} {input r₁ m₁ r₂ m₂ rest : List Char}
    {t₁ t₂ : BooleanExpression}
    (hv₁ : boolean_value fuel input = .ok r₁ t₁)
    (hsk₁ : skipWS r₁ = m₁)
    (hop : binary_and_operator m₁ = .ok r₂ .and)
    (hsk₂ : skipWS r₂ = m₂)
    (hinner : boolean_and fuel m₂ = .ok rest t₂) :
    boolean_and (fuel + 1) input = .ok rest (.binary t₁ .and t₂) := by
  simp only [boolean_and, hv₁, hsk₁, hop, hsk₂, hinner]

/-- boolean_and by its second alternative (exactly one more value). -/
theorem boolean_and_ok_alt2 {fuel : Nat} {input r₁ m₁ r₂ m₂ rest : List Char}
    {t₁ t₂ : BooleanExpression}
    (hv₁ : boolean_value fuel input = .ok r₁ t₁)
    (hsk₁ : skipWS r₁ = m₁)
    (hop : binary_and_operator m₁ = .ok r₂ .and)
    (hsk₂ : skipWS r₂ = m₂)
    (hinner : boolean_and fuel m₂ = .fail)
    (hv₂ : boolean_value fuel m₂ = .ok rest t₂) :
    boolean_and (fuel + 1) input = .ok rest (.binary t₁ .and t₂) := by
  simp only [boolean_and, hv₁, hsk₁, hop, hsk₂, hinner, hv₂]

/-- boolean_or by its first alternative. -/
theorem boolean_or_ok_alt1 {fuel : Nat} {input r₁ m₁ r₂ m₂ rest : List Char}
    {t₁ t₂ : BooleanExpression}
    (hv₁ : boolean_value fuel input = .ok r₁ t₁)
    (hsk₁ : skipWS r₁ = m₁)
    (hop : binary_or_operator m₁ = .ok r₂ .or)
    (hsk₂ : skipWS r₂ = m₂)
    (hinner : boolean_or fuel m₂ = .ok rest t₂) :
    boolean_or (fuel + 1) input = .ok rest (.binary t₁ .or t₂) := by
  simp only [boolean_or, hv₁, hsk₁, hop, hsk₂, hinner]

/-- boolean_or by its second alternative. -/
theorem boolean_or_ok_alt2 {fuel : Nat} {input r₁ m₁ r₂ m₂ rest : List Char}
    {t₁ t₂ : BooleanExpression}
    (hv₁ : boolean_value fuel input = .ok r₁ t₁)
    (hsk₁ : skipWS r₁ = m₁)
    (hop : binary_or_operator m₁ = .ok r₂ .or)
    (hsk₂ : skipWS r₂ = m₂)
    (hinner : boolean_or fuel m₂ = .fail)
    (hv₂ : boolean_value fuel m₂ = .ok rest t₂) :
    boolean_or (fuel + 1) input = .ok rest (.binary t₁ .or t₂) := by
  simp only [boolean_or, hv₁, hsk₁, hop, hsk₂, hinner, hv₂]


/-- The unary operator parser consumes its token. -/
theorem unary_op_tok (Z : List Char) : unary_operator_primary ('!' :: Z) = .ok Z .not := by
  show unary_operator_primary ("!".data ++ Z) = .ok Z .not
  simp only [unary_operator_primary, ptag_self_append]

/-- The and operator parser consumes its token. -/
theorem and_op_tok (X : List Char) : binary_and_operator (copTok .andC ++ X) = .ok X .and := by
  show binary_and_operator ("&&".data ++ X) = .ok X .and
  simp only [binary_and_operator, ptag_self_append]

/-- The or operator parser consumes its token. -/
theorem or_op_tok (X : List Char) : binary_or_operator (copTok .orC ++ X) = .ok X .or := by
  show binary_or_operator ("||".data ++ X) = .ok X .or
  simp only [binary_or_operator, ptag_self_append]

/-- The and operator parser rejects the or token. -/
theorem and_op_fail_orTok (X : List Char) : binary_and_operator (copTok .orC ++ X) = .fail := by
  show binary_and_operator ('|' :: ('|' :: X)) = .fail
  simp only [binary_and_operator, ptag_cons_ne (show ('&' : Char) ≠ '|' by decide)]

/-- Every chain tail has positive structural sizeOf. -/
theorem wchain_sizeOf_pos (t : WChain) : 0 < sizeOf t := by
  cases t <;> simp_arith

/-! ## The printed formula parses to its tree -/

mutual

/-- The value parser accepts a printed value followed by an allowed
remainder and returns its tree. -/
theorem parse_printV (v : WVal) (rest : List Char) (fuel : Nat)
    (hwf : wfV v = true) (hrest : valueFollow rest = true)
    (hfuel : 3 * sizeV v ≤ fuel) :
    boolean_value fuel (printV v ++ rest) = .ok rest (astV v) := by
  have hpos := sizeV_pos v
  obtain ⟨f, rfl⟩ : ∃ f, fuel = f + 1 := ⟨fuel - 1, by omega⟩
  cases v with
  | lit b =>
      cases b with
      | true =>
          show boolean_value (f + 1) ("true".data ++ rest) = .ok rest (.boolean true)
          exact boolean_value_lit
            (bnb_fail_of_ident_fail rfl rfl
              (identifier_true_fail (valueFollow_ident hrest)))
            rfl (boolean_true_ok rest)
      | false =>
          show boolean_value (f + 1) ("false".data ++ rest) = .ok rest (.boolean false)
          exact boolean_value_lit
            (bnb_fail_of_ident_fail rfl rfl
              (identifier_false_fail (valueFollow_ident hrest)))
            rfl (boolean_false_ok rest)
  | wnot ws v' =>
      simp only [wfV, Bool.and_eq_true, allWS, List.all_eq_true] at hwf
      show boolean_value (f + 1) ('!' :: ((ws ++ printV v') ++ rest))
        = .ok rest (.unary .not (astV v'))
      rw [List.append_assoc]
      exact boolean_value_unary rfl rfl rfl (unary_op_tok (ws ++ (printV v' ++ rest)))
        (skipWS_ws_printV v' rest hwf.1)
        (parse_printV v' rest f hwf.2 hrest
          (by simp only [sizeV] at hfuel; omega))
  | paren ws₁ ws₂ e =>
      simp only [wfV, Bool.and_eq_true, allWS, List.all_eq_true] at hwf
      show boolean_value (f + 1)
          ('(' :: ((ws₁ ++ (printE e ++ (ws₂ ++ ')' :: []))) ++ rest))
        = .ok rest (astE e)
      rw [show (ws₁ ++ (printE e ++ (ws₂ ++ ')' :: []))) ++ rest
            = ws₁ ++ (printE e ++ (ws₂ ++ ')' :: rest)) by
          simp [List.append_assoc]]
      exact boolean_value_paren rfl rfl
        (skipWS_ws_printE e (ws₂ ++ ')' :: rest) hwf.1.1)
        (parse_printE e (ws₂ ++ ')' :: rest) f hwf.2
          (Or.inr ⟨ws₂, rest, hwf.1.2, rfl⟩)
          (by simp only [sizeV] at hfuel; omega))
        (dropWhile_append_all hwf.1.2 rfl)
        rfl
termination_by sizeOf v

/-- The and chain parser accepts a printed value followed by a printed and
chain tail and an allowed remainder. -/
theorem parse_printAnd (h : WVal) (t : WChain) (rest : List Char) (fuel : Nat)
    (hwfh : wfV h = true) (hwft : wfC t = true) (hrest : exprFollow rest)
    (hfuel : 3 * (sizeV h + sizeC t) ≤ fuel) :
    boolean_and fuel (printV h ++ (printC .andC t ++ rest))
      = .ok rest (.binary (astV h) .and (astC .andC t)) :=
  match t, hwft, hfuel with
  | .last ws₁ ws₂ v, hwft, hfuel => by
      have hposh := sizeV_pos h
      have hposv := sizeV_pos v
      have hvf : valueFollow (printC .andC (.last ws₁ ws₂ v) ++ rest) = true :=
        valueFollow_printC rest hwft
      have hsk := skipWS_printC .andC (.last ws₁ ws₂ v) rest hwft
      simp only [wfC, Bool.and_eq_true, allWS, List.all_eq_true] at hwft
      obtain ⟨f', rfl⟩ : ∃ f', fuel = f' + 2 :=
        ⟨fuel - 2, by simp only [sizeC] at hfuel; omega⟩
      have hv : boolean_value (f' + 1)
          (printV h ++ (printC .andC (.last ws₁ ws₂ v) ++ rest))
          = .ok (printC .andC (.last ws₁ ws₂ v) ++ rest) (astV h) :=
        parse_printV h (printC .andC (.last ws₁ ws₂ v) ++ rest) (f' + 1) hwfh hvf
          (by simp only [sizeC] at hfuel; omega)
      have hsk₂ : skipWS (tailAfterTok .andC (.last ws₁ ws₂ v) ++ rest)
          = printV v ++ rest := by
        rw [show tailAfterTok .andC (.last ws₁ ws₂ v) ++ rest
              = ws₂ ++ (printV v ++ rest) by simp [tailAfterTok, List.append_assoc]]
        exact skipWS_ws_printV v rest hwft.1.2
      have hvf₂ : valueFollow rest = true := exprFollow_valueFollow hrest
      have hv₂ : boolean_value f' (printV v ++ rest) = .ok rest (astV v) :=
        parse_printV v rest f' hwft.2 hvf₂
          (by simp only [sizeC] at hfuel; omega)
      have hv₂' : boolean_value (f' + 1) (printV v ++ rest) = .ok rest (astV v) :=
        parse_printV v rest (f' + 1) hwft.2 hvf₂
          (by simp only [sizeC] at hfuel; omega)
      have hops := chain_ops_fail hrest
      have hinner : boolean_and (f' + 1) (printV v ++ rest) = .fail :=
        boolean_and_fail_of_value hv₂ hops.1
      exact boolean_and_ok_alt2 hv hsk (and_op_tok _) hsk₂ hinner hv₂'
  | .cons ws₁ ws₂ v t', hwft, hfuel => by
      have hposh := sizeV_pos h
      have hvf : valueFollow (printC .andC (.cons ws₁ ws₂ v t') ++ rest) = true :=
        valueFollow_printC rest hwft
      have hsk := skipWS_printC .andC (.cons ws₁ ws₂ v t') rest hwft
      simp only [wfC, Bool.and_eq_true, allWS, List.all_eq_true] at hwft
      obtain ⟨f, rfl⟩ : ∃ f, fuel = f + 1 := ⟨fuel - 1, by omega⟩
      have hv : boolean_value f
          (printV h ++ (printC .andC (.cons ws₁ ws₂ v t') ++ rest))
          = .ok (printC .andC (.cons ws₁ ws₂ v t') ++ rest) (astV h) :=
        parse_printV h (printC .andC (.cons ws₁ ws₂ v t') ++ rest) f hwfh hvf
          (by simp only [sizeC] at hfuel; omega)
      have hsk₂ : skipWS (tailAfterTok .andC (.cons ws₁ ws₂ v t') ++ rest)
          = printV v ++ (printC .andC t' ++ rest) := by
        rw [show tailAfterTok .andC (.cons ws₁ ws₂ v t') ++ rest
              = ws₂ ++ (printV v ++ (printC .andC t' ++ rest)) by
            simp [tailAfterTok, List.append_assoc]]
        exact skipWS_ws_printV v (printC .andC t' ++ rest) hwft.1.1.2
      have hrec : boolean_and f (printV v ++ (printC .andC t' ++ rest))
          = .ok rest (.binary (astV v) .and (astC .andC t')) :=
        parse_printAnd v t' rest f hwft.1.2 hwft.2 hrest
          (by simp only [sizeC] at hfuel; omega)
      exact boolean_and_ok_alt1 hv hsk (and_op_tok _) hsk₂ hrec
termination_by sizeOf h + sizeOf t
decreasing_by
  all_goals simp_wf
  all_goals omega

/-- The or chain parser accepts a printed value followed by a printed or
chain tail and an allowed remainder. -/
theorem parse_printOr (h : WVal) (t : WChain) (rest : List Char) (fuel : Nat)
    (hwfh : wfV h = true) (hwft : wfC t = true) (hrest : exprFollow rest)
    (hfuel : 3 * (sizeV h + sizeC t) ≤ fuel) :
    boolean_or fuel (printV h ++ (printC .orC t ++ rest))
      = .ok rest (.binary (astV h) .or (astC .orC t)) :=
  match t, hwft, hfuel with
  | .last ws₁ ws₂ v, hwft, hfuel => by
      have hposh := sizeV_pos h
      have hposv := sizeV_pos v
      have hvf : valueFollow (printC .orC (.last ws₁ ws₂ v) ++ rest) = true :=
        valueFollow_printC rest hwft
      have hsk := skipWS_printC .orC (.last ws₁ ws₂ v) rest hwft
      simp only [wfC, Bool.and_eq_true, allWS, List.all_eq_true] at hwft
      obtain ⟨f', rfl⟩ : ∃ f', fuel = f' + 2 :=
        ⟨fuel - 2, by simp only [sizeC] at hfuel; omega⟩
      have hv : boolean_value (f' + 1)
          (printV h ++ (printC .orC (.last ws₁ ws₂ v) ++ rest))
          = .ok (printC .orC (.last ws₁ ws₂ v) ++ rest) (astV h) :=
        parse_printV h (printC .orC (.last ws₁ ws₂ v) ++ rest) (f' + 1) hwfh hvf
          (by simp only [sizeC] at hfuel; omega)
      have hsk₂ : skipWS (tailAfterTok .orC (.last ws₁ ws₂ v) ++ rest)
          = printV v ++ rest := by
        rw [show tailAfterTok .orC (.last ws₁ ws₂ v) ++ rest
              = ws₂ ++ (printV v ++ rest) by simp [tailAfterTok, List.append_assoc]]
        exact skipWS_ws_printV v rest hwft.1.2
      have hvf₂ : valueFollow rest = true := exprFollow_valueFollow hrest
      have hv₂ : boolean_value f' (printV v ++ rest) = .ok rest (astV v) :=
        parse_printV v rest f' hwft.2 hvf₂
          (by simp only [sizeC] at hfuel; omega)
      have hv₂' : boolean_value (f' + 1) (printV v ++ rest) = .ok rest (astV v) :=
        parse_printV v rest (f' + 1) hwft.2 hvf₂
          (by simp only [sizeC] at hfuel; omega)
      have hops := chain_ops_fail hrest
      have hinner : boolean_or (f' + 1) (printV v ++ rest) = .fail :=
        boolean_or_fail_of_value hv₂ hops.2
      exact boolean_or_ok_alt2 hv hsk (or_op_tok _) hsk₂ hinner hv₂'
  | .cons ws₁ ws₂ v t', hwft, hfuel => by
      have hposh := sizeV_pos h
      have hvf : valueFollow (printC .orC (.cons ws₁ ws₂ v t') ++ rest) = true :=
        valueFollow_printC rest hwft
      have hsk := skipWS_printC .orC (.cons ws₁ ws₂ v t') rest hwft
      simp only [wfC, Bool.and_eq_true, allWS, List.all_eq_true] at hwft
      obtain ⟨f, rfl⟩ : ∃ f, fuel = f + 1 := ⟨fuel - 1, by omega⟩
      have hv : boolean_value f
          (printV h ++ (printC .orC (.cons ws₁ ws₂ v t') ++ rest))
          = .ok (printC .orC (.cons ws₁ ws₂ v t') ++ rest) (astV h) :=
        parse_printV h (printC .orC (.cons ws₁ ws₂ v t') ++ rest) f hwfh hvf
          (by simp only [sizeC] at hfuel; omega)
      have hsk₂ : skipWS (tailAfterTok .orC (.cons ws₁ ws₂ v t') ++ rest)
          = printV v ++ (printC .orC t' ++ rest) := by
        rw [show tailAfterTok .orC (.cons ws₁ ws₂ v t') ++ rest
              = ws₂ ++ (printV v ++ (printC .orC t' ++ rest)) by
            simp [tailAfterTok, List.append_assoc]]
        exact skipWS_ws_printV v (printC .orC t' ++ rest) hwft.1.1.2
      have hrec : boolean_or f (printV v ++ (printC .orC t' ++ rest))
          = .ok rest (.binary (astV v) .or (astC .orC t')) :=
        parse_printOr v t' rest f hwft.1.2 hwft.2 hrest
          (by simp only [sizeC] at hfuel; omega)
      exact boolean_or_ok_alt1 hv hsk (or_op_tok _) hsk₂ hrec
termination_by sizeOf h + sizeOf t
decreasing_by
  all_goals simp_wf
  all_goals omega

/-- The expression parser accepts a printed formula followed by an allowed
remainder and returns its tree. -/
theorem parse_printE (e : WExpr) (rest : List Char) (fuel : Nat)
    (hwf : wfE e = true) (hrest : exprFollow rest)
    (hfuel : 3 * sizeE e ≤ fuel) :
    boolean_expression fuel (printE e ++ rest) = .ok rest (astE e) := by
  have hpos := sizeE_pos e
  obtain ⟨f, rfl⟩ : ∃ f, fuel = f + 1 := ⟨fuel - 1, by omega⟩
  cases e with
  | single v =>
      simp only [wfE] at hwf
      have hposv := sizeV_pos v
      obtain ⟨f', rfl⟩ : ∃ f', f = f' + 1 :=
        ⟨f - 1, by simp only [sizeE] at hfuel; omega⟩
      have hvf : valueFollow rest = true := exprFollow_valueFollow hrest
      have hv' : boolean_value f' (printV v ++ rest) = .ok rest (astV v) :=
        parse_printV v rest f' hwf hvf (by simp only [sizeE] at hfuel; omega)
      have hv : boolean_value (f' + 1) (printV v ++ rest) = .ok rest (astV v) :=
        parse_printV v rest (f' + 1) hwf hvf (by simp only [sizeE] at hfuel; omega)
      have hops := chain_ops_fail hrest
      exact boolean_expression_via_value
        (boolean_and_fail_of_value hv' hops.1)
        (boolean_or_fail_of_value hv' hops.2) hv
  | chain c h t =>
      simp only [wfE, Bool.and_eq_true] at hwf
      show boolean_expression (f + 1) ((printV h ++ printC c t) ++ rest)
        = .ok rest (.binary (astV h) (copOp c) (astC c t))
      rw [List.append_assoc]
      cases c with
      | andC =>
          have hand : boolean_and f (printV h ++ (printC .andC t ++ rest))
              = .ok rest (.binary (astV h) .and (astC .andC t)) :=
            parse_printAnd h t rest f hwf.1 hwf.2 hrest
              (by simp only [sizeE] at hfuel; omega)
          simp only [boolean_expression, hand, copOp]
      | orC =>
          have hposh := sizeV_pos h
          have hpost := sizeC_pos t
          obtain ⟨f', rfl⟩ : ∃ f', f = f' + 1 :=
            ⟨f - 1, by simp only [sizeE] at hfuel; omega⟩
          have hvf : valueFollow (printC .orC t ++ rest) = true :=
            valueFollow_printC rest hwf.2
          have hv' : boolean_value f' (printV h ++ (printC .orC t ++ rest))
              = .ok (printC .orC t ++ rest) (astV h) :=
            parse_printV h (printC .orC t ++ rest) f' hwf.1 hvf
              (by simp only [sizeE] at hfuel; omega)
          have hopf : binary_and_operator (skipWS (printC .orC t ++ rest)) = .fail := by
            rw [skipWS_printC .orC t rest hwf.2]
            exact and_op_fail_orTok _
          have hand : boolean_and (f' + 1) (printV h ++ (printC .orC t ++ rest)) = .fail :=
            boolean_and_fail_of_value hv' hopf
          have hor : boolean_or (f' + 1) (printV h ++ (printC .orC t ++ rest))
              = .ok rest (.binary (astV h) .or (astC .orC t)) :=
            parse_printOr h t rest (f' + 1) hwf.1 hwf.2 hrest
              (by simp only [sizeE] at hfuel; omega)
          simp only [boolean_expression, hand, hor, copOp]
termination_by sizeOf e

end

/-! ## Claim C8 -/

/-- C8 counterexample: a text built from a boolean literal, parentheses and
whitespace adjacent to a parenthesis is rejected by evaluate: the grammar
discards whitespace only after operators and just inside parentheses, so the
trailing space after the closing parenthesis is reported as trailing
input instead of evaluating to true. -/
theorem c8_counterexample :
    evaluate noRegex "(true) " emptyContext = .err (.trailingInput " ") ∧
    evaluate noRegex "(true) " emptyContext ≠ .ok true := by
  exact ⟨rfl, by decide⟩

/-- C8 amended: for every expression text built from the literals true and
false, negation, homogeneous and or or chains, and parentheses — with
optional whitespace exactly where the grammar discards it: around the infix
tokens, after the negation token, and just inside parentheses, but not at
the outer boundary of the whole expression — evaluate returns Ok of the
value of the corresponding formula under ordinary boolean algebra, for
every context. -/
theorem c8_literal_boolean_algebra (rx : RegexEngine) (ctx : Context) (e : WExpr)
    (hwf : wfE e = true) :
    evaluate rx (String.mk (printE e)) ctx = .ok (denE e) := by
  have hdata : (String.mk (printE e)).data = printE e := rfl
  have hfuel : 3 * sizeE e ≤ topFuel (printE e) := by
    have := sizeE_le_len e
    show 3 * sizeE e ≤ 3 * (printE e).length + 4
    omega
  have hparse := parse_printE e [] (topFuel (printE e)) hwf (Or.inl rfl) hfuel
  rw [List.append_nil] at hparse
  have hp : parse_whole_boolean_expression (String.mk (printE e)) = .ok (astE e) := by
    unfold parse_whole_boolean_expression
    rw [hdata]
    simp only [hparse]
  unfold evaluate
  simp only [hp, astE_use_context e ctx, astE_evaluate rx e]

/-- A literal formula with whitespace in several slots, for the C8
witness. -/
def c8Example : WExpr :=
  .chain .andC (.lit true)
    (.last (' ' :: []) (' ' :: [])
      (.paren [] (' ' :: []) (.single (.wnot (' ' :: []) (.lit false)))))

/-- C8 witness: the example formula prints to a concrete text with interior
whitespace and evaluates to its boolean algebra value. -/
theorem c8_witness :
    wfE c8Example = true ∧
    String.mk (printE c8Example) = "true && (! false )" ∧
    denE c8Example = true ∧
    evaluate noRegex (String.mk (printE c8Example)) emptyContext = .ok (denE c8Example) :=
  ⟨by decide, by decide, by decide,
   c8_literal_boolean_algebra noRegex emptyContext c8Example (by decide)⟩

end LogicalExpr
